import Mathlib

/-!
Shallow embedding of the job lifecycle and delivery state machine of
`src/main.py` (a job-oriented media-retrieval HTTP proxy).

The embedding covers, faithfully to the source:
* the format preset table and `resolve_format_choice`;
* `resolve_ffmpeg_location` (over an abstract filesystem view);
* `_resolve_final_file` (the yt-dlp output-path recovery heuristic),
  including the `\.f\d+(\.\w+)$` fragment-token strip and the
  same-stem directory-scan fallback;
* the `DownloadManager` store: `create_job`, `get_job`, `_update_job`,
  `mark_delivering`, `mark_downloaded`, `mark_file_consumed`,
  `delete_remote_file`, `process_job`;
* the HTTP endpoints `POST /download` (format/ffmpeg validation gate),
  `GET /download/job_id/file` (status gate, delivery, deferred cleanup)
  and `DELETE /cleanup/job_id`;
* an interleaving semantics for two concurrent delivery requests, split
  at the source's lock boundaries (`get_job` and `mark_delivering` each
  take and release the store lock; the response body is streamed and the
  cleanup runs as a deferred background task).

Python dicts become Lean structures; the in-memory job map becomes a
list of jobs looked up by id; the local filesystem becomes the list of
paths that currently exist; `time.time()` becomes an explicit `now`
parameter; raised exceptions become `Except` results; behaviour of the
external extraction engine and the Google Drive relay is an input
parameter of `process_job` (they are black boxes at the spec boundary).
-/

namespace MainPy

/-- Job status strings of `main.py` (`queued`, `downloading`, `completed`,
`failed`, `delivering`, `downloaded`, `delivered`). -/
inductive Status
  | queued
  | downloading
  | completed
  | failed
  | delivering
  | downloaded
  | delivered
deriving DecidableEq, Repr

/-- The status string as it appears in Python (used in error detail text). -/
def Status.toPyString : Status → String
  | .queued => "queued"
  | .downloading => "downloading"
  | .completed => "completed"
  | .failed => "failed"
  | .delivering => "delivering"
  | .downloaded => "downloaded"
  | .delivered => "delivered"

/-- One job record, mirroring the dict built in `DownloadManager.create_job`. -/
structure Job where
  id : String
  url : String
  output_path : String
  format : String
  ffmpeg_location : Option String
  status : Status
  output_file : Option String
  download_url : Option String
  remote_file_id : Option String
  remote_file_url : Option String
  remote_file_view_url : Option String
  error : Option String
  created_at : Nat
  updated_at : Nat
deriving DecidableEq, Repr

/-- The in-memory job map `DownloadManager._jobs`, keyed by `Job.id`. -/
abbrev Store := List Job

/-- `DownloadManager.get_job`: look up a job by id (a snapshot copy). -/
def getJob (s : Store) (jid : String) : Option Job :=
  s.find? (fun j => j.id == jid)

/-- Replace the entry with `j.id` by `j` (the effect of mutating
`self._jobs[job_id]` in place under the store lock). -/
def setJob (s : Store) (j : Job) : Store :=
  s.map (fun x => if x.id == j.id then j else x)

/-- The fresh job dict of `DownloadManager.create_job` (status `queued`,
all artifact fields `None`). -/
def mkJob (jid url outputPath formatChoice : String) (ffmpeg : Option String)
    (now : Nat) : Job :=
  { id := jid
    url := url
    output_path := outputPath
    format := formatChoice
    ffmpeg_location := ffmpeg
    status := .queued
    output_file := none
    download_url := none
    remote_file_id := none
    remote_file_url := none
    remote_file_view_url := none
    error := none
    created_at := now
    updated_at := now }

/-- `DownloadManager.create_job`: insert a fresh `queued` job. -/
def createJob (s : Store) (jid url outputPath formatChoice : String)
    (ffmpeg : Option String) (now : Nat) : Store :=
  s ++ [mkJob jid url outputPath formatChoice ffmpeg now]

/-- `DownloadManager._update_job`: the synchronized field-update primitive.
It raises `KeyError(job_id)` when the id is absent, otherwise applies the
partial update, refreshes `updated_at` and returns the new store together
with the updated snapshot copy. -/
def updateJob (s : Store) (jid : String) (now : Nat) (upd : Job → Job) :
    Except String (Store × Job) :=
  match getJob s jid with
  | none => .error ("KeyError: " ++ jid)
  | some j =>
    let j2 := { upd j with updated_at := now }
    .ok (setJob s j2, j2)

/-- `DownloadManager.mark_delivering`: sets status `delivering`; on an
absent id it silently returns (no error is raised). -/
def markDelivering (s : Store) (jid : String) (now : Nat) : Store :=
  match getJob s jid with
  | none => s
  | some j => setJob s { j with status := .delivering, updated_at := now }

/-- `DownloadManager.mark_downloaded`: sets status `downloaded`; on an
absent id it silently returns. -/
def markDownloaded (s : Store) (jid : String) (now : Nat) : Store :=
  match getJob s jid with
  | none => s
  | some j => setJob s { j with status := .downloaded, updated_at := now }

/-- `DownloadManager.mark_file_consumed`: sets status `delivered` and
clears `output_file`, `download_url` and all remote fields; on an absent
id it silently returns. -/
def markFileConsumed (s : Store) (jid : String) (now : Nat) : Store :=
  match getJob s jid with
  | none => s
  | some j =>
    setJob s
      { j with
        status := .delivered
        output_file := none
        download_url := none
        remote_file_id := none
        remote_file_url := none
        remote_file_view_url := none
        updated_at := now }

/-- `DownloadManager.delete_remote_file`: when the job exists, has a
`remote_file_id` and a Drive client is available, best-effort delete the
remote object and clear the remote fields; in every other case return with
the store unchanged. `clientAvail` abstracts "`get_google_drive_client()`
neither raised nor returned `None`". -/
def deleteRemoteFile (s : Store) (jid : String) (now : Nat)
    (clientAvail : Bool) : Store :=
  match getJob s jid with
  | none => s
  | some j =>
    match j.remote_file_id with
    | none => s
    | some _ =>
      if clientAvail then
        setJob s
          { j with
            remote_file_id := none
            remote_file_url := none
            remote_file_view_url := none
            updated_at := now }
      else s

/-- Outcome of the Google Drive relay attempt inside `process_job`:
no configured client, client construction raised, upload succeeded, or
upload raised. (Construction failure and upload failure are mutually
exclusive with a successful upload in the source.) -/
inductive RelayOutcome
  | noClient
  | clientError (msg : String)
  | uploadOk (fileId url viewUrl : String)
  | uploadError (msg : String)
deriving DecidableEq, Repr

/-- The `remote_details` dict of `process_job` (set only on upload success). -/
def relayDetails : RelayOutcome → Option (String × String × String)
  | .uploadOk fid u v => some (fid, u, v)
  | _ => none

/-- The `remote_error` string of `process_job` (set when client
construction or the upload raised). -/
def relayError : RelayOutcome → Option String
  | .clientError m => some m
  | .uploadError m => some m
  | _ => none

/-- `DownloadManager.process_job`: the background execution wrapper.
`extraction` is the result of `download_video` (`.ok path` or the raised
error's text); `relay` is the behaviour of the Drive client. The body
mirrors the source: return if the job is absent; set `downloading` and
clear `error`; on extraction failure set `failed`, record the error text
and clear `download_url` and the remote fields; on success set
`completed`, `output_file`, `download_url`, the remote fields when the
upload succeeded, and a `"Google Drive upload failed: ..."` error text
when the relay failed. The function is total: the `except` clause of the
source converts every extraction exception into job state instead of
propagating. Its three update records are `downloadingRecord`,
`failedRecord` and `completedRecord` below; `processJob` itself follows. -/
def downloadingRecord (j : Job) (now : Nat) : Job :=
  { j with status := .downloading, error := none, updated_at := now }

/-- The record written by the `except` clause of `process_job`:
`failed`, error text recorded, `download_url` and remote fields cleared
(`output_file` is not touched by this update). -/
def failedRecord (j1 : Job) (exc : String) (now : Nat) : Job :=
  { j1 with
    status := .failed
    error := some exc
    download_url := none
    remote_file_id := none
    remote_file_url := none
    remote_file_view_url := none
    updated_at := now }

/-- The `updates` dict written on extraction success: `completed`, local
artifact fields populated, remote fields when the upload succeeded, and
the relay failure text as `error` when the relay failed. -/
def completedRecord (jid : String) (j1 : Job) (outputFile : String)
    (relay : RelayOutcome) (now : Nat) : Job :=
  let j2 :=
    { j1 with
      status := Status.completed
      output_file := some outputFile
      download_url := some ("/download/" ++ jid ++ "/file")
      updated_at := now }
  let j3 :=
    match relayDetails relay with
    | some (fid, u, v) =>
      { j2 with
        remote_file_id := some fid
        remote_file_url := some u
        remote_file_view_url := some v }
    | none => j2
  match relayError relay with
  | some m => { j3 with error := some ("Google Drive upload failed: " ++ m) }
  | none => j3

def processJob (s : Store) (jid : String) (now : Nat)
    (extraction : Except String String) (relay : RelayOutcome) : Store :=
  match getJob s jid with
  | none => s
  | some j =>
    let s1 := setJob s (downloadingRecord j now)
    match extraction with
    | .error exc =>
      match getJob s1 jid with
      | none => s1
      | some j1 => setJob s1 (failedRecord j1 exc now)
    | .ok outputFile =>
      match getJob s1 jid with
      | none => s1
      | some j1 => setJob s1 (completedRecord jid j1 outputFile relay now)

/-! ## Delivery endpoint (`GET /download/job_id/file`) and cleanup -/

/-- The rejection outcomes of `download_file`, in source order, each
carrying what the HTTP layer reports. -/
inductive DeliveryError
  | notFound404
  | gone410
  | conflict409
  | notReady409 (st : Status)
  | noRecordedFile404
  | fileMissing404
deriving DecidableEq, Repr

/-- HTTP status code attached to each `HTTPException` in `download_file`. -/
def DeliveryError.httpStatus : DeliveryError → Nat
  | .notFound404 => 404
  | .gone410 => 410
  | .conflict409 => 409
  | .notReady409 _ => 409
  | .noRecordedFile404 => 404
  | .fileMissing404 => 404

/-- The `detail` message of each `HTTPException` in `download_file`
(the not-ready message interpolates the current status). -/
def DeliveryError.detail : DeliveryError → String
  | .notFound404 => "ไม่พบงานดาวน์โหลดนี้"
  | .gone410 => "ไฟล์นี้ถูกดาวน์โหลดและลบไปแล้ว"
  | .conflict409 => "ไฟล์กำลังถูกส่งให้คำขออื่น"
  | .notReady409 st => "งานยังไม่เสร็จสมบูรณ์ (status: " ++ st.toPyString ++ ")"
  | .noRecordedFile404 => "ไม่พบไฟล์ที่บันทึก"
  | .fileMissing404 => "ไฟล์ถูกลบหรือย้ายไปแล้ว"

/-- Membership test in `allowed_statuses` of `download_file`:
`completed` always, `downloaded` additionally when `auto_delete` is false. -/
def statusAllowed (st : Status) (autoDelete : Bool) : Bool :=
  st == .completed || (!autoDelete && st == .downloaded)

/-- The check sequence of `download_file` that runs before
`mark_delivering`, in source order: unknown id, `delivered`,
`delivering`, membership in `allowed_statuses`, falsy `output_file`,
artifact no longer on disk. `fs` is the list of paths that currently
exist on disk. On success it returns the job snapshot and the path to
serve. -/
def downloadFileGate (s : Store) (fs : List String) (jid : String)
    (autoDelete : Bool) : Except DeliveryError (Job × String) :=
  match getJob s jid with
  | none => .error .notFound404
  | some job =>
    if job.status = .delivered then .error .gone410
    else if job.status = .delivering then .error .conflict409
    else if statusAllowed job.status autoDelete then
      match job.output_file with
      | none => .error .noRecordedFile404
      | some f =>
        if f = "" then .error .noRecordedFile404
        else if f ∈ fs then .ok (job, f)
        else .error .fileMissing404
    else .error (.notReady409 job.status)

/-- `_cleanup_after_delivery`: unlink the local file (missing-file errors
swallowed), best-effort delete the remote artifact, then mark the job
`delivered` with artifact fields cleared. Returns the new filesystem and
store. -/
def cleanupAfterDelivery (fs : List String) (s : Store) (jid : String)
    (outputPath : String) (now : Nat) (clientAvail : Bool) :
    List String × Store :=
  let fs2 := fs.filter (fun p => p != outputPath)
  let s2 := deleteRemoteFile s jid now clientAvail
  (fs2, markFileConsumed s2 jid now)

/-- Result of one full (uninterleaved) run of `download_file`. -/
structure DeliverResult where
  store : Store
  fs : List String
  outcome : Except DeliveryError Unit

/-- One full sequential run of `download_file`: the gate, then
`mark_delivering`, then the response, then the deferred action
(`_cleanup_after_delivery` when `auto_delete`, else `mark_downloaded`).
A rejected request returns before any mutation. -/
def deliverOnce (s : Store) (fs : List String) (jid : String)
    (autoDelete : Bool) (now : Nat) (clientAvail : Bool) : DeliverResult :=
  match downloadFileGate s fs jid autoDelete with
  | .error e => ⟨s, fs, .error e⟩
  | .ok (_, f) =>
    let s1 := markDelivering s jid now
    if autoDelete then
      let r := cleanupAfterDelivery fs s1 jid f now clientAvail
      ⟨r.2, r.1, .ok ()⟩
    else ⟨markDownloaded s1 jid now, fs, .ok ()⟩

/-- The response of `DELETE /cleanup/job_id`. -/
inductive CleanupOutcome
  | notFound404
  | deletedFile (file : String)
  | alreadyGone
deriving DecidableEq, Repr

/-- The tail of `manual_cleanup` reached when there is no on-disk
artifact: best-effort remote delete, then `mark_file_consumed` only for
statuses `completed`, `delivering`, `downloaded`. -/
def manualCleanupFallback (s : Store) (fs : List String) (job : Job)
    (jid : String) (now : Nat) (clientAvail : Bool) :
    Store × List String × CleanupOutcome :=
  let s2 := deleteRemoteFile s jid now clientAvail
  let s3 :=
    if job.status = .completed ∨ job.status = .delivering ∨ job.status = .downloaded
    then markFileConsumed s2 jid now
    else s2
  (s3, fs, .alreadyGone)

/-- `manual_cleanup` (`DELETE /cleanup/job_id`): 404 on unknown id; when
the recorded artifact is truthy and on disk, dispose of it via
`_cleanup_after_delivery`; otherwise the fallback tail. -/
def manualCleanup (s : Store) (fs : List String) (jid : String) (now : Nat)
    (clientAvail : Bool) : Store × List String × CleanupOutcome :=
  match getJob s jid with
  | none => (s, fs, .notFound404)
  | some job =>
    match job.output_file with
    | some f =>
      if f ≠ "" ∧ f ∈ fs then
        let r := cleanupAfterDelivery fs s jid f now clientAvail
        (r.2, r.1, .deletedFile f)
      else manualCleanupFallback s fs job jid now clientAvail
    | none => manualCleanupFallback s fs job jid now clientAvail

/-! ## Format presets and `POST /download` validation -/

/-- The `FORMAT_PRESETS` dict restricted to its `"format"` values, in
insertion order: preset key paired with its yt-dlp selection expression. -/
def FORMAT_PRESETS : List (String × String) :=
  [("auto", "best"), ("merge_best", "bv*+ba/best"),
   ("video_only", "bv*"), ("audio_only", "ba/best")]

/-- `list(FORMAT_PRESETS.keys())` in insertion order (`valid_formats`). -/
def validFormats : List String := FORMAT_PRESETS.map (·.1)

/-- `FORMAT_PRESETS.get(k)` projected to the `"format"` value. -/
def formatPresetExpr (k : String) : Option String :=
  (FORMAT_PRESETS.find? (fun p => p.1 == k)).map (·.2)

/-- `resolve_format_choice`: preset keys map to their expression; any
other non-empty string is returned unchanged; the empty (falsy) string
defaults to the `auto` preset's expression. -/
def resolve_format_choice (formatChoice : String) : String :=
  match formatPresetExpr formatChoice with
  | some f => f
  | none => if formatChoice = "" then "best" else formatChoice

/-- What the filesystem says about a path (for `resolve_ffmpeg_location`). -/
inductive PathKind
  | file
  | dir
  | absent
deriving DecidableEq, Repr

/-- `resolve_ffmpeg_location`: a custom path that is a file resolves to
its parent directory, a directory resolves to itself, anything else
raises `FileNotFoundError`; with no custom path, the bundled
`ffmpeg/bin` directory is used when it exists, else `None`. `kind` and
`parent` abstract the filesystem probe and `Path.parent`. -/
def resolve_ffmpeg_location (kind : String → PathKind)
    (parent : String → String) (defaultDirExists : Bool) (defaultDir : String) :
    Option String → Except String (Option String)
  | some p =>
    match kind p with
    | .file => .ok (some (parent p))
    | .dir => .ok (some p)
    | .absent => .error ("ไม่พบตำแหน่ง FFmpeg ที่ระบุ: " ++ p)
  | none => .ok (if defaultDirExists then some defaultDir else none)

/-- Outcome of the validation prefix of `enqueue_download`. -/
inductive EnqueueOutcome
  | badFormat400
  | badFfmpeg400 (msg : String)
  | accepted (resolvedFfmpeg : Option String)
deriving DecidableEq, Repr

/-- The validation prefix of `POST /download` (`enqueue_download`): 400
when `payload.format` is not one of the four preset keys; then, when a
custom ffmpeg location is given, 400 when `resolve_ffmpeg_location`
raises; otherwise the job is created and dispatched with
`resolved_ffmpeg or payload.ffmpeg_location`. -/
def enqueueDownload (kind : String → PathKind) (parent : String → String)
    (defaultDirExists : Bool) (defaultDir : String)
    (format : String) (ffmpegLocation : Option String) : EnqueueOutcome :=
  if format ∉ validFormats then .badFormat400
  else
    match ffmpegLocation with
    | none => .accepted none
    | some p =>
      match resolve_ffmpeg_location kind parent defaultDirExists defaultDir (some p) with
      | .error m => .badFfmpeg400 m
      | .ok r =>
        .accepted (match r with | some q => some q | none => some p)

/-! ## `_resolve_final_file`: the output-path recovery heuristic -/

/-- A filesystem path split as directory plus final name component. -/
structure FPath where
  dir : String
  name : String
deriving DecidableEq, Repr

/-- `\w` of Python's `re` on ASCII-ish input: letters, digits, underscore. -/
def isWordChar (c : Char) : Bool := c.isAlphanum || c = '_'

/-- Given the characters after a literal `'.'`, check the rest of the
pattern `\.f\d+(\.\w+)$`: an `f`, one or more digits, then the capture
group `\.\w+` extending to the end of the name. Returns the capture
group (the final `.ext`) on a match. -/
def fragTail (rest : List Char) : Option (List Char) :=
  match rest with
  | [] => none
  | c :: t =>
    if c = 'f' then
      let ds := t.takeWhile Char.isDigit
      let r := t.dropWhile Char.isDigit
      if ds.isEmpty then none
      else
        match r with
        | [] => none
        | d :: ws =>
          if d = '.' ∧ ¬ ws.isEmpty ∧ ws.all isWordChar then some r else none
    else none

/-- `re.sub(pattern, group1, name)` for the pattern `\.f\d+(\.\w+)$`:
replace the leftmost match of `.f<digits>.<ext>` at the end of the name
by `.<ext>`; leave the name unchanged when there is no match. -/
def stripFragList : List Char → List Char
  | [] => []
  | c :: rest =>
    if c = '.' then
      match fragTail rest with
      | some r => r
      | none => c :: stripFragList rest
    else c :: stripFragList rest

/-- The fragment-token strip applied to a file name. -/
def stripFragment (name : String) : String := String.mk (stripFragList name.toList)

/-- Index of the last occurrence of `c`, if any. -/
def lastIdxOf (c : Char) : List Char → Option Nat
  | [] => none
  | x :: xs =>
    match lastIdxOf c xs with
    | some i => some (i + 1)
    | none => if x = c then some 0 else none

/-- `pathlib.PurePath.suffix`: the final `.ext` when the last dot is
neither leading nor trailing, else the empty string. -/
def pySuffix (name : String) : String :=
  let cs := name.toList
  match lastIdxOf '.' cs with
  | some i => if 0 < i ∧ i + 1 < cs.length then String.mk (cs.drop i) else ""
  | none => ""

/-- `pathlib.PurePath.stem`: the name with `pySuffix` removed. -/
def pyStem (name : String) : String :=
  let cs := name.toList
  String.mk (cs.take (cs.length - (pySuffix name).toList.length))

/-- Does `name` match the glob pattern `pre ++ "*." ++ ext` (one star,
matching any character run)? -/
def globMatch (pre ext : String) (name : String) : Bool :=
  name.startsWith pre && (name.drop pre.length).endsWith ("." ++ ext)

/-- `_resolve_final_file`: return the reported path when it exists; else
strip the `\.f\d+(\.\w+)$` fragment token from the name and return that
sibling when it exists; else scan the directory with the glob pattern
`stem.split(".f")[0] ++ "*." ++ suffix.lstrip(".")` and return the first
existing match; else raise `FileNotFoundError` ("no downloaded file
found"). `fs` is the list of existing paths, in directory-listing order. -/
def resolveFinalFile (fs : List FPath) (p : FPath) : Except String FPath :=
  if p ∈ fs then .ok p
  else
    let alt : FPath := ⟨p.dir, stripFragment p.name⟩
    if alt ∈ fs then .ok alt
    else
      let pre := ((pyStem p.name).splitOn ".f").headD ""
      let ext := (pySuffix p.name).dropWhile (· = '.')
      let candidates := fs.filter (fun q => q.dir == p.dir && globMatch pre ext q.name)
      match candidates with
      | c :: _ => .ok c
      | [] => .error ("ไม่พบไฟล์ที่ดาวน์โหลดสำเร็จ: " ++ p.dir ++ "/" ++ p.name)

/-- Filesystem effect of `download_video`: a successful extraction puts
the produced file on disk. -/
def processFs (fs : List String) (extraction : Except String String) : List String :=
  match extraction with
  | .ok f => fs ++ [f]
  | .error _ => fs

/-! ## Two concurrent delivery requests

`download_file` holds the store lock only inside `get_job` and inside
`mark_delivering`; the file-existence check, the response body and the
deferred cleanup run outside it. The model below splits one request at
exactly those boundaries and interleaves two requests under an arbitrary
schedule. -/

/-- How a delivery request ends. -/
inductive ReqOutcome
  | success
  | rejected (e : DeliveryError)
  | ioError
deriving DecidableEq, Repr

/-- Program counter of one in-flight `download_file` request:
`pending` (about to run the gate on a fresh `get_job` snapshot),
`passed f` (gate passed, about to call `mark_delivering`),
`marked f` (lock released after marking, about to read/stream the file),
`served f` (response body sent, deferred action still to run),
`done` (finished). -/
inductive ReqPhase
  | pending
  | passed (file : String)
  | marked (file : String)
  | served (file : String)
  | done (outcome : ReqOutcome)
deriving DecidableEq, Repr

/-- One delivery request: its phase, its `auto_delete` flag, the job
status its gate read (for later inspection), and whether it has sent the
artifact bytes. -/
structure Req where
  phase : ReqPhase
  autoDelete : Bool
  observed : Option Status
  servedBytes : Bool
deriving DecidableEq, Repr

/-- A delivery request that has not started executing. -/
def Req.fresh (autoDelete : Bool) : Req :=
  ⟨.pending, autoDelete, none, false⟩

/-- One atomic step of a single request against the shared store and
disk. Each branch is one lock-delimited slice of `download_file`. -/
def reqStep (jid : String) (now : Nat) (clientAvail : Bool) (store : Store)
    (fs : List String) (r : Req) : Store × List String × Req :=
  match r.phase with
  | .pending =>
    match downloadFileGate store fs jid r.autoDelete with
    | .error e =>
      (store, fs,
        { r with phase := .done (.rejected e), observed := (getJob store jid).map (·.status) })
    | .ok (j, f) =>
      (store, fs, { r with phase := .passed f, observed := some j.status })
  | .passed f => (markDelivering store jid now, fs, { r with phase := .marked f })
  | .marked f =>
    if f ∈ fs then (store, fs, { r with phase := .served f, servedBytes := true })
    else (store, fs, { r with phase := .done .ioError })
  | .served f =>
    if r.autoDelete then
      let c := cleanupAfterDelivery fs store jid f now clientAvail
      (c.2, c.1, { r with phase := .done .success })
    else (markDownloaded store jid now, fs, { r with phase := .done .success })
  | .done _ => (store, fs, r)

/-- Shared state: the store, the disk, and the two concurrent requests. -/
structure Sys where
  store : Store
  fs : List String
  req1 : Req
  req2 : Req
deriving DecidableEq, Repr

/-- Run one step of the scheduled request (`true` steps request 1). -/
def sysStep (jid : String) (now : Nat) (clientAvail : Bool) (turn : Bool)
    (sys : Sys) : Sys :=
  if turn then
    let r := reqStep jid now clientAvail sys.store sys.fs sys.req1
    { sys with store := r.1, fs := r.2.1, req1 := r.2.2 }
  else
    let r := reqStep jid now clientAvail sys.store sys.fs sys.req2
    { sys with store := r.1, fs := r.2.1, req2 := r.2.2 }

/-- Run a whole schedule (a list of turns, taken left to right). -/
def runSchedule (jid : String) (now : Nat) (clientAvail : Bool)
    (sched : List Bool) (sys : Sys) : Sys :=
  sched.foldl (fun acc turn => sysStep jid now clientAvail turn acc) sys

/-- Request-level invariant: a request whose gate observed status
`delivering` has finished rejected with the conflict signal and has
served no bytes; a request that has not yet run its gate has served no
bytes either. -/
def reqInv (r : Req) : Prop :=
  (r.observed = some Status.delivering →
    r.phase = ReqPhase.done (ReqOutcome.rejected DeliveryError.conflict409)
    ∧ r.servedBytes = false)
  ∧ (r.phase = ReqPhase.pending → r.servedBytes = false)

/-! ## Fine-grained system semantics

The full system interleaves, at the granularity of single store-lock
acquisitions, an arbitrary number of concurrent handlers:
* delivery requests (`download_file`), reusing `reqStep` — the split of
  one request at its two lock acquisitions (`get_job` gate,
  `mark_delivering`) plus the streamed response and the deferred action;
* manual cleanup requests (`manual_cleanup`), split at their own lock
  boundary: the `get_job` snapshot with the branch decision, then the
  disposal or fallback action against the *current* store;
* background job executions (`process_job`), split at its three store
  accesses: the initial `get_job` check, the `downloading` update, and
  the final `completed`/`failed` update (the extraction and the relay
  run in between, outside any lock);
* job creation (`POST /download`), which creates a `queued` job under a
  fresh identifier (ids are never reused) and dispatches its single
  background execution;
* arbitrary external filesystem change (files "may have been externally
  removed" per the delivery endpoint). -/

/-- One in-flight delivery request: its target job id and its request
state (`reqStep` phases). -/
structure DThread where
  jid : String
  req : Req
deriving DecidableEq, Repr

/-- Program counter of one in-flight `manual_cleanup` request:
`cInit` (about to run `get_job` and the snapshot checks), `cDispose f`
(the snapshot had a truthy recorded artifact that existed on disk; about
to run `_cleanup_after_delivery`), `cFallback snap` (no disposable
artifact; about to run the remote-delete / conditional
`mark_file_consumed` tail, whose status test uses the snapshot),
`cDone`. -/
inductive CPhase
  | cInit
  | cDispose (file : String)
  | cFallback (snap : Job)
  | cDone (outcome : CleanupOutcome)
deriving DecidableEq, Repr

/-- One in-flight manual cleanup request. -/
structure CThread where
  jid : String
  phase : CPhase
deriving DecidableEq, Repr

/-- The first slice of `manual_cleanup`: the `get_job` snapshot plus the
branch decision (404, disposal, or fallback). -/
def cleanupCheckStep (store : Store) (fs : List String) (jid : String) : CPhase :=
  match getJob store jid with
  | none => .cDone .notFound404
  | some job =>
    match job.output_file with
    | some f => if f ≠ "" ∧ f ∈ fs then .cDispose f else .cFallback job
    | none => .cFallback job

/-- One atomic slice of `manual_cleanup` against the shared store/disk. -/
def cleanupStep (store : Store) (fs : List String) (jid : String) (now : Nat)
    (ca : Bool) : CPhase → Store × List String × CPhase
  | .cInit => (store, fs, cleanupCheckStep store fs jid)
  | .cDispose f =>
    let r := cleanupAfterDelivery fs store jid f now ca
    (r.2, r.1, .cDone (.deletedFile f))
  | .cFallback snap =>
    let r := manualCleanupFallback store fs snap jid now ca
    (r.1, r.2.1, .cDone .alreadyGone)
  | .cDone o => (store, fs, .cDone o)

/-- Program counter of one background `process_job` execution:
`pCheck` (about to run the initial `get_job` presence check), `pMark`
(about to run the `downloading` update), `pRun` (extraction and relay in
flight; about to run the final update), `pDone`. -/
inductive PPhase
  | pCheck
  | pMark
  | pRun
  | pDone
deriving DecidableEq, Repr

/-- One in-flight background job execution. -/
structure PThread where
  jid : String
  phase : PPhase
deriving DecidableEq, Repr

/-- The final `_update_job` of `process_job`: on extraction failure the
`failed` record, on success the `completed` record (with the relay's
outcome folded in). -/
def processFinishStep (store : Store) (jid : String) (now : Nat)
    (ext : Except String String) (relay : RelayOutcome) : Store :=
  match ext with
  | .error exc =>
    match getJob store jid with
    | none => store
    | some j1 => setJob store (failedRecord j1 exc now)
  | .ok f =>
    match getJob store jid with
    | none => store
    | some j1 => setJob store (completedRecord jid j1 f relay now)

/-- One atomic slice of `process_job` against the shared store/disk
(`ext`/`relay` are the black-box outcomes, consumed at the final
update). -/
def processStep (store : Store) (fs : List String) (jid : String) (now : Nat)
    (ext : Except String String) (relay : RelayOutcome) :
    PPhase → Store × List String × PPhase
  | .pCheck =>
    match getJob store jid with
    | none => (store, fs, .pDone)
    | some _ => (store, fs, .pMark)
  | .pMark =>
    (match getJob store jid with
      | none => store
      | some j => setJob store (downloadingRecord j now),
     fs, .pRun)
  | .pRun => (processFinishStep store jid now ext relay, processFs fs ext, .pDone)
  | .pDone => (store, fs, .pDone)

/-- The whole system: the store, the disk, and every in-flight delivery
request, manual cleanup request, and background execution. -/
structure FSys where
  store : Store
  fs : List String
  dthreads : List DThread
  cthreads : List CThread
  pthreads : List PThread
deriving DecidableEq, Repr

/-- One step of the system: spawn a delivery or cleanup request, create
a job under a fresh id (dispatching its single execution), advance one
in-flight thread by one lock-delimited slice, or change the disk
externally. -/
inductive FStep : FSys → FSys → Prop
  | spawnDelivery (w : FSys) (jid : String) (ad : Bool) :
      FStep w { w with dthreads := w.dthreads ++ [⟨jid, Req.fresh ad⟩] }
  | spawnCleanup (w : FSys) (jid : String) :
      FStep w { w with cthreads := w.cthreads ++ [⟨jid, CPhase.cInit⟩] }
  | create (w : FSys) (jid url outp fmt : String) (ffm : Option String)
      (now : Nat) (hfresh : getJob w.store jid = none) :
      FStep w
        { w with
          store := createJob w.store jid url outp fmt ffm now
          pthreads := w.pthreads ++ [⟨jid, PPhase.pCheck⟩] }
  | dstep (w : FSys) (i : Nat) (t : DThread) (now : Nat) (ca : Bool)
      (hi : w.dthreads[i]? = some t) :
      FStep w
        { w with
          store := (reqStep t.jid now ca w.store w.fs t.req).1
          fs := (reqStep t.jid now ca w.store w.fs t.req).2.1
          dthreads := w.dthreads.set i
            ⟨t.jid, (reqStep t.jid now ca w.store w.fs t.req).2.2⟩ }
  | cstep (w : FSys) (i : Nat) (t : CThread) (now : Nat) (ca : Bool)
      (hi : w.cthreads[i]? = some t) :
      FStep w
        { w with
          store := (cleanupStep w.store w.fs t.jid now ca t.phase).1
          fs := (cleanupStep w.store w.fs t.jid now ca t.phase).2.1
          cthreads := w.cthreads.set i
            ⟨t.jid, (cleanupStep w.store w.fs t.jid now ca t.phase).2.2⟩ }
  | pstep (w : FSys) (i : Nat) (t : PThread) (now : Nat)
      (ext : Except String String) (relay : RelayOutcome)
      (hi : w.pthreads[i]? = some t) :
      FStep w
        { w with
          store := (processStep w.store w.fs t.jid now ext relay t.phase).1
          fs := (processStep w.store w.fs t.jid now ext relay t.phase).2.1
          pthreads := w.pthreads.set i
            ⟨t.jid, (processStep w.store w.fs t.jid now ext relay t.phase).2.2⟩ }
  | fschange (w : FSys) (fs' : List String) :
      FStep w { w with fs := fs' }

/-- Systems reachable from the empty system (the disk may be changed
arbitrarily by `fschange`, so the empty initial disk loses nothing). -/
def FReachable (w : FSys) : Prop :=
  Relation.ReflTransGen FStep ⟨[], [], [], [], []⟩ w

/-- All five artifact-pointing fields of a job are null. -/
def fiveNull (j : Job) : Prop :=
  j.output_file = none ∧ j.download_url = none ∧ j.remote_file_id = none
  ∧ j.remote_file_url = none ∧ j.remote_file_view_url = none

/-- A delivery-request phase that has not passed its status check (or is
finished): it will never mutate the store before re-running the gate. -/
def dquiet : ReqPhase → Bool
  | .pending => true
  | .done _ => true
  | _ => false

/-- The statuses for which `manual_cleanup`'s fallback runs
`mark_file_consumed`. -/
def markyStatus (st : Status) : Bool :=
  st == Status.completed || st == Status.delivering || st == Status.downloaded

/-- A cleanup phase that can no longer mutate a terminal job: it has not
yet taken its snapshot, or it is finished, or its snapshot triggers
neither the disposal path nor the fallback's `mark_file_consumed`. -/
def cquiet : CPhase → Bool
  | .cInit => true
  | .cDone _ => true
  | .cFallback snap => !markyStatus snap.status
  | .cDispose _ => false

/-- A cleanup phase that has already taken its `get_job` snapshot. -/
def cSnapped : CPhase → Bool
  | .cDispose _ => true
  | .cFallback _ => true
  | _ => false

/-- No in-flight delivery or cleanup request for job `a` is past its
status check in a way that could still mutate `a`: precisely the
requests that arrived (reached their check) after the job stopped being
deliverable. -/
def DangerFree (a : String) (w : FSys) : Prop :=
  (∀ t ∈ w.dthreads, t.jid = a → dquiet t.req.phase = true)
  ∧ (∀ t ∈ w.cthreads, t.jid = a → cquiet t.phase = true)

/-- Every background execution of job `a` has finished. -/
def pAllDone (a : String) (w : FSys) : Prop :=
  ∀ t ∈ w.pthreads, t.jid = a → t.phase = PPhase.pDone

/-- Per-job state invariant of the fine-grained system: a job that has
not completed extraction (`queued`/`downloading`) has no recorded
artifact, no remote id, and no in-flight request past its status check;
a `failed` job likewise; a `delivered` job has every artifact-pointing
field null. -/
def jobFInv (w : FSys) (j : Job) : Prop :=
  ((j.status = Status.queued ∨ j.status = Status.downloading) →
    j.output_file = none ∧ j.remote_file_id = none ∧ DangerFree j.id w)
  ∧ (j.status = Status.failed →
    j.output_file = none ∧ j.remote_file_id = none ∧ DangerFree j.id w)
  ∧ (j.status = Status.delivered → fiveNull j)

/-- Phase/status coupling of one background execution: its job exists,
is `queued` until the `downloading` update, and is `downloading` while
extraction runs. -/
def pcInv (w : FSys) (t : PThread) : Prop :=
  ∃ j, getJob w.store t.jid = some j
    ∧ ((t.phase = PPhase.pCheck ∨ t.phase = PPhase.pMark) → j.status = Status.queued)
    ∧ (t.phase = PPhase.pRun → j.status = Status.downloading)

/-- Global invariant of the fine-grained system. -/
def FInv (w : FSys) : Prop :=
  (w.store.map (·.id)).Nodup
  ∧ (∀ j ∈ w.store, jobFInv w j)
  ∧ (∀ (k : Nat) (t : PThread), w.pthreads[k]? = some t → pcInv w t)
  ∧ (w.pthreads.map (·.jid)).Nodup
  ∧ (∀ t ∈ w.dthreads, dquiet t.req.phase = true ∨ ∃ j, getJob w.store t.jid = some j)
  ∧ (∀ t ∈ w.cthreads, cSnapped t.phase = true → ∃ j, getJob w.store t.jid = some j)

/-! ## Concrete demonstration values (used by witnesses and counterexamples) -/

/-- A job that has completed extraction with local artifact `"f"`. -/
def demoCompleted : Job :=
  { mkJob "j1" "u" "." "auto" none 0 with
      status := Status.completed
      output_file := some "f"
      download_url := some "/download/j1/file" }

/-- The racy schedule: both requests run their status gate before either
marks `delivering`, both then mark and stream, cleanups run last. -/
def raceSchedule : List Bool := [true, false, true, true, false, false, true, false]

/-- Two fresh auto-delete delivery requests against one completed job
whose artifact is on disk. -/
def demoInit : Sys := ⟨[demoCompleted], ["f"], Req.fresh true, Req.fresh true⟩

/-- The terminal `failed` snapshot of `"j1"` after the demo execution
below fails with `"boom"`. -/
def demoFailedJob : Job :=
  { mkJob "j1" "u" "." "auto" none 0 with
      status := Status.failed
      error := some "boom"
      updated_at := 1 }

/-- The terminal `delivered` snapshot of `"j1"` after the demo execution
below succeeds and the artifact is delivered with auto-delete. -/
def demoDeliveredJob : Job :=
  { mkJob "j1" "u" "." "auto" none 0 with
      status := Status.delivered
      updated_at := 2 }

/-- Fine-grained demo: the empty system, then job `"j1"` is created (its
execution dispatched), the execution runs its three slices and fails
with `"boom"`; finally a manual cleanup request is spawned. -/
def fdemo0 : FSys := ⟨[], [], [], [], []⟩

def fdemo1 : FSys :=
  { fdemo0 with
    store := createJob fdemo0.store "j1" "u" "." "auto" none 0
    pthreads := fdemo0.pthreads ++ [⟨"j1", PPhase.pCheck⟩] }

def fdemo2 : FSys :=
  { fdemo1 with
    store := (processStep fdemo1.store fdemo1.fs "j1" 1 (Except.error "boom")
      RelayOutcome.noClient PPhase.pCheck).1
    fs := (processStep fdemo1.store fdemo1.fs "j1" 1 (Except.error "boom")
      RelayOutcome.noClient PPhase.pCheck).2.1
    pthreads := fdemo1.pthreads.set 0 ⟨"j1", (processStep fdemo1.store fdemo1.fs "j1" 1
      (Except.error "boom") RelayOutcome.noClient PPhase.pCheck).2.2⟩ }

def fdemo3 : FSys :=
  { fdemo2 with
    store := (processStep fdemo2.store fdemo2.fs "j1" 1 (Except.error "boom")
      RelayOutcome.noClient PPhase.pMark).1
    fs := (processStep fdemo2.store fdemo2.fs "j1" 1 (Except.error "boom")
      RelayOutcome.noClient PPhase.pMark).2.1
    pthreads := fdemo2.pthreads.set 0 ⟨"j1", (processStep fdemo2.store fdemo2.fs "j1" 1
      (Except.error "boom") RelayOutcome.noClient PPhase.pMark).2.2⟩ }

def fdemo4 : FSys :=
  { fdemo3 with
    store := (processStep fdemo3.store fdemo3.fs "j1" 1 (Except.error "boom")
      RelayOutcome.noClient PPhase.pRun).1
    fs := (processStep fdemo3.store fdemo3.fs "j1" 1 (Except.error "boom")
      RelayOutcome.noClient PPhase.pRun).2.1
    pthreads := fdemo3.pthreads.set 0 ⟨"j1", (processStep fdemo3.store fdemo3.fs "j1" 1
      (Except.error "boom") RelayOutcome.noClient PPhase.pRun).2.2⟩ }

def fdemo5 : FSys := { fdemo4 with cthreads := fdemo4.cthreads ++ [⟨"j1", CPhase.cInit⟩] }

/-- Fine-grained demo: like `fdemo1`–`fdemo4` but the execution succeeds
with artifact `"f1"`, then a delivery request is spawned and runs its
four slices to completion (auto-delete), leaving `"j1"` `delivered`. -/
def gdemo2 : FSys :=
  { fdemo1 with
    store := (processStep fdemo1.store fdemo1.fs "j1" 1 (Except.ok "f1")
      RelayOutcome.noClient PPhase.pCheck).1
    fs := (processStep fdemo1.store fdemo1.fs "j1" 1 (Except.ok "f1")
      RelayOutcome.noClient PPhase.pCheck).2.1
    pthreads := fdemo1.pthreads.set 0 ⟨"j1", (processStep fdemo1.store fdemo1.fs "j1" 1
      (Except.ok "f1") RelayOutcome.noClient PPhase.pCheck).2.2⟩ }

def gdemo3 : FSys :=
  { gdemo2 with
    store := (processStep gdemo2.store gdemo2.fs "j1" 1 (Except.ok "f1")
      RelayOutcome.noClient PPhase.pMark).1
    fs := (processStep gdemo2.store gdemo2.fs "j1" 1 (Except.ok "f1")
      RelayOutcome.noClient PPhase.pMark).2.1
    pthreads := gdemo2.pthreads.set 0 ⟨"j1", (processStep gdemo2.store gdemo2.fs "j1" 1
      (Except.ok "f1") RelayOutcome.noClient PPhase.pMark).2.2⟩ }

def gdemo4 : FSys :=
  { gdemo3 with
    store := (processStep gdemo3.store gdemo3.fs "j1" 1 (Except.ok "f1")
      RelayOutcome.noClient PPhase.pRun).1
    fs := (processStep gdemo3.store gdemo3.fs "j1" 1 (Except.ok "f1")
      RelayOutcome.noClient PPhase.pRun).2.1
    pthreads := gdemo3.pthreads.set 0 ⟨"j1", (processStep gdemo3.store gdemo3.fs "j1" 1
      (Except.ok "f1") RelayOutcome.noClient PPhase.pRun).2.2⟩ }

def gdemo5 : FSys := { gdemo4 with dthreads := gdemo4.dthreads ++ [⟨"j1", Req.fresh true⟩] }

def gstepD (w : FSys) (r : Req) : FSys :=
  { w with
    store := (reqStep "j1" 2 true w.store w.fs r).1
    fs := (reqStep "j1" 2 true w.store w.fs r).2.1
    dthreads := w.dthreads.set 0 ⟨"j1", (reqStep "j1" 2 true w.store w.fs r).2.2⟩ }

def gdemo6 : FSys := gstepD gdemo5 (Req.fresh true)

def gdemo7 : FSys := gstepD gdemo6 ⟨ReqPhase.passed "f1", true, some Status.completed, false⟩

def gdemo8 : FSys := gstepD gdemo7 ⟨ReqPhase.marked "f1", true, some Status.completed, false⟩

def gdemo9 : FSys := gstepD gdemo8 ⟨ReqPhase.served "f1", true, some Status.completed, true⟩

/-- One further step from `fdemo5`: the spawned manual cleanup request
takes its snapshot (the `failed` job is left untouched). -/
def fdemo6 : FSys :=
  { fdemo5 with
    store := (cleanupStep fdemo5.store fdemo5.fs "j1" 3 true CPhase.cInit).1
    fs := (cleanupStep fdemo5.store fdemo5.fs "j1" 3 true CPhase.cInit).2.1
    cthreads := fdemo5.cthreads.set 0 ⟨"j1",
      (cleanupStep fdemo5.store fdemo5.fs "j1" 3 true CPhase.cInit).2.2⟩ }

/-- One further step from `gdemo9`: another delivery request arrives for
the now-`delivered` job. -/
def gdemo10 : FSys :=
  { gdemo9 with dthreads := gdemo9.dthreads ++ [⟨"j1", Req.fresh true⟩] }

/-! ## Basic store lemmas -/

theorem getJob_id {s : Store} {jid : String} {j : Job} (h : getJob s jid = some j) :
    j.id = jid := by
  unfold getJob at h
  exact eq_of_beq (List.find?_some (p := fun (y : Job) => y.id == jid) h)

theorem getJob_mem {s : Store} {jid : String} {j : Job} (h : getJob s jid = some j) :
    j ∈ s :=
  List.mem_of_find?_eq_some h

theorem getJob_setJob_ne {s : Store} {j2 : Job} {jid : String} (h : j2.id ≠ jid) :
    getJob (setJob s j2) jid = getJob s jid := by
  induction s with
  | nil => rfl
  | cons x xs ih =>
    unfold setJob getJob at ih ⊢
    simp only [List.map_cons]
    by_cases hx : (x.id == j2.id) = true
    · rw [if_pos hx]
      rw [List.find?_cons_of_neg (p := fun (y : Job) => y.id == jid) _
          (by simp only [beq_iff_eq]; exact h),
        List.find?_cons_of_neg (p := fun (y : Job) => y.id == jid) _
          (by simp only [beq_iff_eq, eq_of_beq hx]; exact h)]
      exact ih
    · rw [if_neg hx]
      by_cases hxj : (x.id == jid) = true
      · rw [List.find?_cons_of_pos (p := fun (y : Job) => y.id == jid) _ hxj,
          List.find?_cons_of_pos (p := fun (y : Job) => y.id == jid) _ hxj]
      · rw [List.find?_cons_of_neg (p := fun (y : Job) => y.id == jid) _ hxj,
          List.find?_cons_of_neg (p := fun (y : Job) => y.id == jid) _ hxj]
        exact ih

theorem getJob_setJob_self {s : Store} {jid : String} {j j2 : Job}
    (h : getJob s jid = some j) (h2 : j2.id = jid) :
    getJob (setJob s j2) jid = some j2 := by
  induction s with
  | nil => simp [getJob] at h
  | cons x xs ih =>
    unfold getJob at ih h ⊢
    unfold setJob at ih ⊢
    simp only [List.map_cons]
    by_cases hxj : (x.id == jid) = true
    · rw [if_pos (show (x.id == j2.id) = true by
        simp only [beq_iff_eq] at hxj ⊢; rw [hxj, h2])]
      rw [List.find?_cons_of_pos (p := fun (y : Job) => y.id == jid) _
        (show (j2.id == jid) = true by simp only [beq_iff_eq]; exact h2)]
    · rw [if_neg (show ¬(x.id == j2.id) = true by
        simp only [beq_iff_eq] at hxj ⊢; rw [h2]; exact hxj)]
      rw [List.find?_cons_of_neg (p := fun (y : Job) => y.id == jid) _ hxj]
      rw [List.find?_cons_of_neg (p := fun (y : Job) => y.id == jid) _ hxj] at h
      exact ih h

theorem getJob_append {s l : List Job} {jid : String} {j : Job}
    (h : getJob s jid = some j) : getJob (s ++ l) jid = some j := by
  unfold getJob at h ⊢
  rw [List.find?_append, h]
  rfl

theorem mem_setJob {s : Store} {j2 x : Job} (h : x ∈ setJob s j2) :
    x = j2 ∨ x ∈ s := by
  unfold setJob at h
  rcases List.mem_map.mp h with ⟨y, hy, hxy⟩
  by_cases hc : (y.id == j2.id) = true
  · rw [if_pos hc] at hxy
    exact Or.inl hxy.symm
  · rw [if_neg hc] at hxy
    cases hxy
    exact Or.inr hy

/-! ## Record and operation lemmas -/

theorem completedRecord_id (jid : String) (j1 : Job) (f : String)
    (relay : RelayOutcome) (now : Nat) :
    (completedRecord jid j1 f relay now).id = j1.id := by
  unfold completedRecord
  cases relay <;> rfl

theorem completedRecord_status (jid : String) (j1 : Job) (f : String)
    (relay : RelayOutcome) (now : Nat) :
    (completedRecord jid j1 f relay now).status = Status.completed := by
  unfold completedRecord
  cases relay <;> rfl

theorem getJob_markDelivering_ne {s : Store} {a jid : String} {now : Nat}
    (h : a ≠ jid) : getJob (markDelivering s a now) jid = getJob s jid := by
  unfold markDelivering
  cases hg : getJob s a with
  | none => rfl
  | some j0 => exact getJob_setJob_ne (show j0.id ≠ jid by rw [getJob_id hg]; exact h)

theorem getJob_markDownloaded_ne {s : Store} {a jid : String} {now : Nat}
    (h : a ≠ jid) : getJob (markDownloaded s a now) jid = getJob s jid := by
  unfold markDownloaded
  cases hg : getJob s a with
  | none => rfl
  | some j0 => exact getJob_setJob_ne (show j0.id ≠ jid by rw [getJob_id hg]; exact h)

theorem getJob_markFileConsumed_ne {s : Store} {a jid : String} {now : Nat}
    (h : a ≠ jid) : getJob (markFileConsumed s a now) jid = getJob s jid := by
  unfold markFileConsumed
  cases hg : getJob s a with
  | none => rfl
  | some j0 => exact getJob_setJob_ne (show j0.id ≠ jid by rw [getJob_id hg]; exact h)

theorem getJob_deleteRemoteFile_ne {s : Store} {a jid : String} {now : Nat}
    {ca : Bool} (h : a ≠ jid) :
    getJob (deleteRemoteFile s a now ca) jid = getJob s jid := by
  unfold deleteRemoteFile
  cases hg : getJob s a with
  | none => rfl
  | some j0 =>
    dsimp only
    cases hrid : j0.remote_file_id with
    | none => rfl
    | some rid =>
      dsimp only
      by_cases hca : ca = true
      · rw [if_pos hca]
        exact getJob_setJob_ne (show j0.id ≠ jid by rw [getJob_id hg]; exact h)
      · rw [if_neg hca]

theorem getJob_cleanupAfterDelivery_ne {s : Store} {fs : List String}
    {a jid : String} {f : String} {now : Nat} {ca : Bool} (h : a ≠ jid) :
    getJob (cleanupAfterDelivery fs s a f now ca).2 jid = getJob s jid := by
  unfold cleanupAfterDelivery
  rw [getJob_markFileConsumed_ne h, getJob_deleteRemoteFile_ne h]

theorem getJob_processJob_ne {s : Store} {a jid : String} {now : Nat}
    {ext : Except String String} {relay : RelayOutcome} (h : a ≠ jid) :
    getJob (processJob s a now ext relay) jid = getJob s jid := by
  unfold processJob
  cases hg : getJob s a with
  | none => rfl
  | some j0 =>
    have hid : j0.id = a := getJob_id hg
    have h1 : getJob (setJob s (downloadingRecord j0 now)) jid = getJob s jid :=
      getJob_setJob_ne (show j0.id ≠ jid by rw [hid]; exact h)
    dsimp only
    cases ext with
    | error exc =>
      dsimp only
      cases hg1 : getJob (setJob s (downloadingRecord j0 now)) a with
      | none => exact h1
      | some j1 =>
        dsimp only
        have hid1 : j1.id = a := getJob_id hg1
        rw [getJob_setJob_ne (show (failedRecord j1 exc now).id ≠ jid by
          show j1.id ≠ jid
          rw [hid1]; exact h)]
        exact h1
    | ok f =>
      dsimp only
      cases hg1 : getJob (setJob s (downloadingRecord j0 now)) a with
      | none => exact h1
      | some j1 =>
        dsimp only
        have hid1 : j1.id = a := getJob_id hg1
        rw [getJob_setJob_ne
          (show (completedRecord a j1 f relay now).id ≠ jid by
            rw [completedRecord_id, hid1]; exact h)]
        exact h1

theorem getJob_deliverOnce_ne {s : Store} {fs : List String} {a jid : String}
    {ad : Bool} {now : Nat} {ca : Bool} (h : a ≠ jid) :
    getJob (deliverOnce s fs a ad now ca).store jid = getJob s jid := by
  unfold deliverOnce
  cases hg : downloadFileGate s fs a ad with
  | error e => rfl
  | ok jf =>
    dsimp only
    by_cases had : ad = true
    · rw [if_pos had]
      dsimp only
      rw [getJob_cleanupAfterDelivery_ne h, getJob_markDelivering_ne h]
    · rw [if_neg had]
      dsimp only
      rw [getJob_markDownloaded_ne h, getJob_markDelivering_ne h]

theorem getJob_manualCleanup_ne {s : Store} {fs : List String} {a jid : String}
    {now : Nat} {ca : Bool} (h : a ≠ jid) :
    getJob (manualCleanup s fs a now ca).1 jid = getJob s jid := by
  unfold manualCleanup manualCleanupFallback
  cases hg : getJob s a with
  | none => rfl
  | some job =>
    dsimp only
    cases hof : job.output_file with
    | some f =>
      dsimp only
      by_cases hf : f ≠ "" ∧ f ∈ fs
      · rw [if_pos hf]
        dsimp only
        exact getJob_cleanupAfterDelivery_ne h
      · rw [if_neg hf]
        dsimp only
        by_cases hst : job.status = Status.completed ∨ job.status = Status.delivering
            ∨ job.status = Status.downloaded
        · rw [if_pos hst]
          rw [getJob_markFileConsumed_ne h, getJob_deleteRemoteFile_ne h]
        · rw [if_neg hst]
          exact getJob_deleteRemoteFile_ne h
    | none =>
      dsimp only
      by_cases hst : job.status = Status.completed ∨ job.status = Status.delivering
          ∨ job.status = Status.downloaded
      · rw [if_pos hst]
        rw [getJob_markFileConsumed_ne h, getJob_deleteRemoteFile_ne h]
      · rw [if_neg hst]
        exact getJob_deleteRemoteFile_ne h

/-! ## Gate lemmas for `download_file` -/

theorem gate_none {s : Store} {fs : List String} {jid : String} {ad : Bool}
    (h : getJob s jid = none) :
    downloadFileGate s fs jid ad = .error .notFound404 := by
  unfold downloadFileGate
  rw [h]

theorem gate_delivered {s : Store} {fs : List String} {jid : String} {ad : Bool}
    {j : Job} (hj : getJob s jid = some j) (hst : j.status = Status.delivered) :
    downloadFileGate s fs jid ad = .error .gone410 := by
  unfold downloadFileGate
  rw [hj]
  dsimp only
  rw [if_pos hst]

theorem gate_delivering {s : Store} {fs : List String} {jid : String} {ad : Bool}
    {j : Job} (hj : getJob s jid = some j) (hst : j.status = Status.delivering) :
    downloadFileGate s fs jid ad = .error .conflict409 := by
  unfold downloadFileGate
  rw [hj]
  dsimp only
  rw [if_neg (by rw [hst]; simp), if_pos hst]

theorem gate_notReady {s : Store} {fs : List String} {jid : String} {ad : Bool}
    {j : Job} (hj : getJob s jid = some j)
    (h1 : j.status ≠ Status.delivered) (h2 : j.status ≠ Status.delivering)
    (h3 : statusAllowed j.status ad = false) :
    downloadFileGate s fs jid ad = .error (.notReady409 j.status) := by
  unfold downloadFileGate
  rw [hj]
  dsimp only
  rw [if_neg h1, if_neg h2, if_neg (by rw [h3]; simp)]

theorem gate_noFile {s : Store} {fs : List String} {jid : String} {ad : Bool}
    {j : Job} (hj : getJob s jid = some j)
    (h1 : j.status ≠ Status.delivered) (h2 : j.status ≠ Status.delivering)
    (h3 : statusAllowed j.status ad = true) (hof : j.output_file = none) :
    downloadFileGate s fs jid ad = .error .noRecordedFile404 := by
  unfold downloadFileGate
  rw [hj]
  dsimp only
  rw [if_neg h1, if_neg h2, if_pos h3, hof]

theorem gate_fileMissing {s : Store} {fs : List String} {jid : String} {ad : Bool}
    {j : Job} {f : String} (hj : getJob s jid = some j)
    (h1 : j.status ≠ Status.delivered) (h2 : j.status ≠ Status.delivering)
    (h3 : statusAllowed j.status ad = true) (hof : j.output_file = some f)
    (hne : f ≠ "") (hmem : f ∉ fs) :
    downloadFileGate s fs jid ad = .error .fileMissing404 := by
  unfold downloadFileGate
  rw [hj]
  dsimp only
  rw [if_neg h1, if_neg h2, if_pos h3, hof]
  dsimp only
  rw [if_neg hne, if_neg hmem]

theorem gate_ok_intro {s : Store} {fs : List String} {jid : String} {ad : Bool}
    {j : Job} {f : String} (hj : getJob s jid = some j)
    (h1 : j.status ≠ Status.delivered) (h2 : j.status ≠ Status.delivering)
    (h3 : statusAllowed j.status ad = true) (hof : j.output_file = some f)
    (hne : f ≠ "") (hmem : f ∈ fs) :
    downloadFileGate s fs jid ad = .ok (j, f) := by
  unfold downloadFileGate
  rw [hj]
  dsimp only
  rw [if_neg h1, if_neg h2, if_pos h3, hof]
  dsimp only
  rw [if_neg hne, if_pos hmem]

theorem gate_ok_elim {s : Store} {fs : List String} {jid : String} {ad : Bool}
    {j : Job} {f : String} (h : downloadFileGate s fs jid ad = .ok (j, f)) :
    getJob s jid = some j ∧ j.status ≠ Status.delivered
    ∧ j.status ≠ Status.delivering ∧ statusAllowed j.status ad = true
    ∧ j.output_file = some f ∧ f ≠ "" ∧ f ∈ fs := by
  unfold downloadFileGate at h
  split at h
  · exact absurd h (by simp)
  next job hg =>
    split at h
    · exact absurd h (by simp)
    · split at h
      · exact absurd h (by simp)
      · split at h
        next hall =>
          split at h
          · exact absurd h (by simp)
          next f0 hof =>
            split at h
            · exact absurd h (by simp)
            next hne =>
              split at h
              next hmem =>
                obtain ⟨rfl, rfl⟩ : job = j ∧ f0 = f := by
                  have := Except.ok.inj h
                  exact ⟨congrArg Prod.fst this, congrArg Prod.snd this⟩
                refine ⟨hg, by assumption, by assumption, hall, hof, hne, hmem⟩
              · exact absurd h (by simp)
        · exact absurd h (by simp)

/-! ## The `delivering` observation forces a conflict rejection -/

theorem reqInv_fresh (ad : Bool) : reqInv (Req.fresh ad) := by
  constructor
  · intro h
    exact Option.noConfusion h
  · intro _
    rfl

theorem reqInv_reqStep (jid : String) (now : Nat) (ca : Bool) (store : Store)
    (fs : List String) {r : Req} (h : reqInv r) :
    reqInv (reqStep jid now ca store fs r).2.2 := by
  obtain ⟨hobs, hpend⟩ := h
  cases hph : r.phase with
  | pending =>
    unfold reqStep
    rw [hph]
    dsimp only
    cases hg : downloadFileGate store fs jid r.autoDelete with
    | error e =>
      dsimp only
      constructor
      · intro ho
        dsimp only at ho
        cases hgj : getJob store jid with
        | none =>
          rw [hgj] at ho
          exact Option.noConfusion ho
        | some j =>
          rw [hgj] at ho
          have hst : j.status = Status.delivering := Option.some.inj ho
          have hcon := @gate_delivering store fs jid r.autoDelete j hgj hst
          rw [hcon] at hg
          have he : DeliveryError.conflict409 = e := by
            have := Except.error.inj hg
            exact this
          refine ⟨?_, hpend hph⟩
          dsimp only
          rw [← he]
      · intro hp
        dsimp only at hp
        exact ReqPhase.noConfusion hp
    | ok jf =>
      dsimp only
      constructor
      · intro ho
        dsimp only at ho
        have hne := (gate_ok_elim (j := jf.1) (f := jf.2) hg).2.2.1
        exact absurd (Option.some.inj ho) hne
      · intro hp
        dsimp only at hp
        exact ReqPhase.noConfusion hp
  | passed f =>
    unfold reqStep
    rw [hph]
    dsimp only
    constructor
    · intro ho
      dsimp only at ho
      have hdone := (hobs ho).1
      rw [hph] at hdone
      exact ReqPhase.noConfusion hdone
    · intro hp
      dsimp only at hp
      exact ReqPhase.noConfusion hp
  | marked f =>
    unfold reqStep
    rw [hph]
    dsimp only
    by_cases hmem : f ∈ fs
    · rw [if_pos hmem]
      dsimp only
      constructor
      · intro ho
        dsimp only at ho
        have hdone := (hobs ho).1
        rw [hph] at hdone
        exact ReqPhase.noConfusion hdone
      · intro hp
        dsimp only at hp
        exact ReqPhase.noConfusion hp
    · rw [if_neg hmem]
      dsimp only
      constructor
      · intro ho
        dsimp only at ho
        have hdone := (hobs ho).1
        rw [hph] at hdone
        exact ReqPhase.noConfusion hdone
      · intro hp
        dsimp only at hp
        exact ReqPhase.noConfusion hp
  | served f =>
    unfold reqStep
    rw [hph]
    dsimp only
    by_cases had : r.autoDelete = true
    · rw [if_pos had]
      dsimp only
      constructor
      · intro ho
        dsimp only at ho
        have hdone := (hobs ho).1
        rw [hph] at hdone
        exact ReqPhase.noConfusion hdone
      · intro hp
        dsimp only at hp
        exact ReqPhase.noConfusion hp
    · rw [if_neg had]
      dsimp only
      constructor
      · intro ho
        dsimp only at ho
        have hdone := (hobs ho).1
        rw [hph] at hdone
        exact ReqPhase.noConfusion hdone
      · intro hp
        dsimp only at hp
        exact ReqPhase.noConfusion hp
  | done o =>
    unfold reqStep
    rw [hph]
    exact ⟨hobs, hpend⟩

theorem reqInv_sysStep (jid : String) (now : Nat) (ca : Bool) (turn : Bool)
    {sys : Sys} (h1 : reqInv sys.req1) (h2 : reqInv sys.req2) :
    reqInv (sysStep jid now ca turn sys).req1
    ∧ reqInv (sysStep jid now ca turn sys).req2 := by
  unfold sysStep
  by_cases ht : turn = true
  · rw [if_pos ht]
    exact ⟨reqInv_reqStep jid now ca sys.store sys.fs h1, h2⟩
  · rw [if_neg ht]
    exact ⟨h1, reqInv_reqStep jid now ca sys.store sys.fs h2⟩

theorem reqInv_runSchedule (jid : String) (now : Nat) (ca : Bool)
    (sched : List Bool) : ∀ {sys : Sys}, reqInv sys.req1 → reqInv sys.req2 →
    reqInv (runSchedule jid now ca sched sys).req1
    ∧ reqInv (runSchedule jid now ca sched sys).req2 := by
  induction sched with
  | nil =>
    intro sys h1 h2
    exact ⟨h1, h2⟩
  | cons t ts ih =>
    intro sys h1 h2
    have hstep := reqInv_sysStep jid now ca t h1 h2
    rw [show runSchedule jid now ca (t :: ts) sys
        = runSchedule jid now ca ts (sysStep jid now ca t sys) from rfl]
    exact ih hstep.1 hstep.2

/-! ## Misc helper lemmas -/

theorem statusAllowed_elim {st : Status} {ad : Bool}
    (h : statusAllowed st ad = true) :
    st = Status.completed ∨ st = Status.downloaded := by
  cases st <;> cases ad <;>
    first
      | exact Or.inl rfl
      | exact Or.inr rfl
      | exact absurd h (by decide)

theorem formatPresetExpr_eq_none {fmt : String} (h : fmt ∉ validFormats) :
    formatPresetExpr fmt = none := by
  unfold formatPresetExpr
  rw [List.find?_eq_none.mpr (fun x hx hbeq =>
    h (List.mem_map.mpr ⟨x, hx, eq_of_beq hbeq⟩))]
  rfl

/-! ## Identifier bookkeeping -/

theorem mem_of_getIdx {α : Type _} {l : List α} {i : Nat} {a : α}
    (h : l[i]? = some a) : a ∈ l := by
  obtain ⟨hlt, he⟩ := List.getElem?_eq_some.mp h
  exact he ▸ List.getElem_mem hlt

theorem idsOf_setJob (s : Store) (r : Job) :
    (setJob s r).map (·.id) = s.map (·.id) := by
  induction s with
  | nil => rfl
  | cons x xs ih =>
    unfold setJob at ih ⊢
    simp only [List.map_cons]
    rw [ih]
    by_cases hx : (x.id == r.id) = true
    · rw [if_pos hx, eq_of_beq hx]
    · rw [if_neg hx]

theorem getJob_eq_none_iff {s : Store} {a : String} :
    getJob s a = none ↔ a ∉ s.map (·.id) := by
  unfold getJob
  rw [List.find?_eq_none]
  constructor
  · intro h hmem
    rcases List.mem_map.mp hmem with ⟨x, hx, hid⟩
    exact h x hx (by simp only [beq_iff_eq]; exact hid)
  · intro h x hx hbeq
    exact h (List.mem_map.mpr ⟨x, hx, eq_of_beq hbeq⟩)

theorem mem_ids_of_getJob {s : Store} {a : String} {j : Job}
    (h : getJob s a = some j) : a ∈ s.map (·.id) := by
  by_contra hmem
  rw [← getJob_eq_none_iff] at hmem
  rw [h] at hmem
  exact Option.noConfusion hmem

theorem getJob_some_setJob {s : Store} {r : Job} {a : String} {j : Job}
    (h : getJob s a = some j) : ∃ j2, getJob (setJob s r) a = some j2 := by
  cases hg : getJob (setJob s r) a with
  | some j2 => exact ⟨j2, rfl⟩
  | none =>
    have hno := getJob_eq_none_iff.mp hg
    rw [idsOf_setJob] at hno
    exact absurd (mem_ids_of_getJob h) hno

theorem getJob_of_mem_nodup {s : Store} {j : Job}
    (hnd : (s.map (·.id)).Nodup) (hm : j ∈ s) : getJob s j.id = some j := by
  induction s with
  | nil => cases hm
  | cons x xs ih =>
    rw [List.map_cons, List.nodup_cons] at hnd
    rcases List.mem_cons.mp hm with rfl | hm2
    · unfold getJob
      rw [List.find?_cons_of_pos (p := fun (y : Job) => y.id == j.id) _ (by simp)]
    · have hne : ¬(x.id == j.id) = true := by
        simp only [beq_iff_eq]
        intro hEq
        exact hnd.1 (hEq ▸ List.mem_map_of_mem (·.id) hm2)
      unfold getJob at ih ⊢
      rw [List.find?_cons_of_neg (p := fun (y : Job) => y.id == j.id) _ hne]
      exact ih hnd.2 hm2

theorem nodup_ids_setJob {s : Store} {r : Job} (h : (s.map (·.id)).Nodup) :
    ((setJob s r).map (·.id)).Nodup := by
  rw [idsOf_setJob]
  exact h

theorem nodup_ids_createJob {s : Store} {jid url op fmt : String}
    {ffm : Option String} {now : Nat} (h : (s.map (·.id)).Nodup)
    (hfresh : getJob s jid = none) :
    ((createJob s jid url op fmt ffm now).map (·.id)).Nodup := by
  unfold createJob
  rw [List.map_append]
  refine List.Nodup.append h (by simp) ?_
  intro a ha hb
  simp only [List.map_cons, List.map_nil, List.mem_singleton] at hb
  subst hb
  exact (getJob_eq_none_iff.mp hfresh) ha

theorem getJob_createJob_fresh {s : Store} {jid url op fmt : String}
    {ffm : Option String} {now : Nat} (hfresh : getJob s jid = none) :
    getJob (createJob s jid url op fmt ffm now) jid
      = some (mkJob jid url op fmt ffm now) := by
  unfold createJob getJob
  rw [List.find?_append]
  unfold getJob at hfresh
  rw [hfresh, Option.none_or]
  exact List.find?_cons_of_pos _ (by simp [mkJob])

/-! ## Operation case equations -/

theorem markDelivering_cases (s : Store) (a : String) (now : Nat) :
    markDelivering s a now = s
    ∨ ∃ j, getJob s a = some j
        ∧ markDelivering s a now
          = setJob s { j with status := Status.delivering, updated_at := now } := by
  unfold markDelivering
  cases hg : getJob s a with
  | none => exact Or.inl rfl
  | some j => exact Or.inr ⟨j, rfl, rfl⟩

theorem markDownloaded_cases (s : Store) (a : String) (now : Nat) :
    markDownloaded s a now = s
    ∨ ∃ j, getJob s a = some j
        ∧ markDownloaded s a now
          = setJob s { j with status := Status.downloaded, updated_at := now } := by
  unfold markDownloaded
  cases hg : getJob s a with
  | none => exact Or.inl rfl
  | some j => exact Or.inr ⟨j, rfl, rfl⟩

theorem markFileConsumed_cases (s : Store) (a : String) (now : Nat) :
    markFileConsumed s a now = s
    ∨ ∃ j, getJob s a = some j
        ∧ markFileConsumed s a now
          = setJob s
              { j with
                status := Status.delivered
                output_file := none
                download_url := none
                remote_file_id := none
                remote_file_url := none
                remote_file_view_url := none
                updated_at := now } := by
  unfold markFileConsumed
  cases hg : getJob s a with
  | none => exact Or.inl rfl
  | some j => exact Or.inr ⟨j, rfl, rfl⟩

theorem deleteRemoteFile_cases (s : Store) (a : String) (now : Nat) (ca : Bool) :
    deleteRemoteFile s a now ca = s
    ∨ ∃ j, getJob s a = some j ∧ j.remote_file_id ≠ none
        ∧ deleteRemoteFile s a now ca
          = setJob s
              { j with
                remote_file_id := none
                remote_file_url := none
                remote_file_view_url := none
                updated_at := now } := by
  unfold deleteRemoteFile
  cases hg : getJob s a with
  | none => exact Or.inl rfl
  | some j =>
    dsimp only
    cases hrid : j.remote_file_id with
    | none => exact Or.inl rfl
    | some rid =>
      dsimp only
      by_cases hca : ca = true
      · rw [if_pos hca]
        exact Or.inr ⟨j, rfl, by simp [hrid], rfl⟩
      · rw [if_neg hca]
        exact Or.inl rfl

theorem deleteRemoteFile_eq_self {s : Store} {a : String} {j : Job} {now : Nat}
    {ca : Bool} (h : getJob s a = some j) (hrid : j.remote_file_id = none) :
    deleteRemoteFile s a now ca = s := by
  unfold deleteRemoteFile
  rw [h]
  dsimp only
  rw [hrid]

/-! ## Locality of the fine-grained step functions -/

theorem getJob_reqStep_ne {b a : String} {now : Nat} {ca : Bool} {store : Store}
    {fs : List String} {r : Req} (h : b ≠ a) :
    getJob (reqStep b now ca store fs r).1 a = getJob store a := by
  unfold reqStep
  cases hph : r.phase with
  | pending =>
    dsimp only
    cases hg : downloadFileGate store fs b r.autoDelete with
    | error e => rfl
    | ok jf => rfl
  | passed f =>
    dsimp only
    exact getJob_markDelivering_ne h
  | marked f =>
    dsimp only
    by_cases hmem : f ∈ fs
    · rw [if_pos hmem]
    · rw [if_neg hmem]
  | served f =>
    dsimp only
    by_cases had : r.autoDelete = true
    · rw [if_pos had]
      dsimp only
      exact getJob_cleanupAfterDelivery_ne h
    · rw [if_neg had]
      dsimp only
      exact getJob_markDownloaded_ne h
  | done o => rfl

theorem getJob_cleanupStep_ne {b a : String} {now : Nat} {ca : Bool}
    {store : Store} {fs : List String} {ph : CPhase} (h : b ≠ a) :
    getJob (cleanupStep store fs b now ca ph).1 a = getJob store a := by
  cases ph with
  | cInit => rfl
  | cDispose f =>
    show getJob (cleanupAfterDelivery fs store b f now ca).2 a = getJob store a
    exact getJob_cleanupAfterDelivery_ne h
  | cFallback snap =>
    show getJob (manualCleanupFallback store fs snap b now ca).1 a = getJob store a
    unfold manualCleanupFallback
    dsimp only
    by_cases hst : snap.status = Status.completed ∨ snap.status = Status.delivering
        ∨ snap.status = Status.downloaded
    · rw [if_pos hst]
      rw [getJob_markFileConsumed_ne h, getJob_deleteRemoteFile_ne h]
    · rw [if_neg hst]
      exact getJob_deleteRemoteFile_ne h
  | cDone o => rfl

theorem getJob_processFinishStep_ne {b a : String} {now : Nat}
    {ext : Except String String} {relay : RelayOutcome} {store : Store}
    (h : b ≠ a) :
    getJob (processFinishStep store b now ext relay) a = getJob store a := by
  unfold processFinishStep
  cases ext with
  | error exc =>
    cases hg : getJob store b with
    | none => rfl
    | some j1 =>
      have hid1 : j1.id = b := getJob_id hg
      exact getJob_setJob_ne (show (failedRecord j1 exc now).id ≠ a by
        show j1.id ≠ a
        rw [hid1]
        exact h)
  | ok f =>
    cases hg : getJob store b with
    | none => rfl
    | some j1 =>
      have hid1 : j1.id = b := getJob_id hg
      exact getJob_setJob_ne (show (completedRecord b j1 f relay now).id ≠ a by
        rw [completedRecord_id, hid1]
        exact h)

theorem getJob_processStep_ne {b a : String} {now : Nat}
    {ext : Except String String} {relay : RelayOutcome} {store : Store}
    {fs : List String} {ph : PPhase} (h : b ≠ a) :
    getJob (processStep store fs b now ext relay ph).1 a = getJob store a := by
  cases ph with
  | pCheck =>
    show getJob (match getJob store b with
      | none => (store, fs, PPhase.pDone)
      | some _ => (store, fs, PPhase.pMark)).1 a = getJob store a
    cases hg : getJob store b with
    | none => rfl
    | some j => rfl
  | pMark =>
    show getJob (match getJob store b with
      | none => store
      | some j => setJob store (downloadingRecord j now)) a = getJob store a
    cases hg : getJob store b with
    | none => rfl
    | some j =>
      have hid : j.id = b := getJob_id hg
      exact getJob_setJob_ne (show (downloadingRecord j now).id ≠ a by
        show j.id ≠ a
        rw [hid]
        exact h)
  | pRun => exact getJob_processFinishStep_ne h
  | pDone => rfl

/-! ## List position helpers -/

theorem set_self_of_getIdx {α : Type _} {l : List α} {i : Nat} {a : α}
    (h : l[i]? = some a) : l.set i a = l := by
  induction l generalizing i with
  | nil => rfl
  | cons x xs ih =>
    cases i with
    | zero =>
      simp only [List.getElem?_cons_zero, Option.some.injEq] at h
      rw [List.set_cons_zero, h]
    | succ n =>
      simp only [List.getElem?_cons_succ] at h
      rw [List.set_cons_succ, ih h]

theorem nodup_map_eq_of_mem {α β : Type _} {f : α → β} {l : List α}
    (h : (l.map f).Nodup) {x y : α} (hx : x ∈ l) (hy : y ∈ l)
    (hf : f x = f y) : x = y := by
  induction l with
  | nil => cases hx
  | cons z zs ih =>
    rw [List.map_cons, List.nodup_cons] at h
    rcases List.mem_cons.mp hx with rfl | hx2
    · rcases List.mem_cons.mp hy with rfl | hy2
      · rfl
      · have hmem : f y ∈ zs.map f := List.mem_map_of_mem f hy2
        rw [← hf] at hmem
        exact absurd hmem h.1
    · rcases List.mem_cons.mp hy with rfl | hy2
      · have hmem : f x ∈ zs.map f := List.mem_map_of_mem f hx2
        rw [hf] at hmem
        exact absurd hmem h.1
      · exact ih h.2 hx2 hy2

theorem nodup_getIdx_inj {α β : Type _} {f : α → β} {l : List α}
    (h : (l.map f).Nodup) {i k : Nat} {x y : α}
    (hi : l[i]? = some x) (hk : l[k]? = some y) (hf : f x = f y) : i = k := by
  by_contra hik
  have hmi : (l.map f)[i]? = some (f x) := by
    rw [List.getElem?_map, hi]; rfl
  have hmk : (l.map f)[k]? = some (f y) := by
    rw [List.getElem?_map, hk]; rfl
  rw [← hf] at hmk
  obtain ⟨hlt, he⟩ := List.getElem?_eq_some.mp hmi
  obtain ⟨hlt2, he2⟩ := List.getElem?_eq_some.mp hmk
  have heq : (⟨i, hlt⟩ : Fin (l.map f).length) = ⟨k, hlt2⟩ :=
    (List.Nodup.get_inj_iff h).mp (by
      show (l.map f)[i] = (l.map f)[k]
      rw [he, he2])
  exact hik (congrArg Fin.val heq)

/-! ## Identifier preservation of every store operation -/

theorem idsOf_markDelivering (s : Store) (a : String) (now : Nat) :
    (markDelivering s a now).map (·.id) = s.map (·.id) := by
  rcases markDelivering_cases s a now with hM | ⟨j, hj, hM⟩
  · rw [hM]
  · rw [hM]; exact idsOf_setJob s _

theorem idsOf_markDownloaded (s : Store) (a : String) (now : Nat) :
    (markDownloaded s a now).map (·.id) = s.map (·.id) := by
  rcases markDownloaded_cases s a now with hM | ⟨j, hj, hM⟩
  · rw [hM]
  · rw [hM]; exact idsOf_setJob s _

theorem idsOf_markFileConsumed (s : Store) (a : String) (now : Nat) :
    (markFileConsumed s a now).map (·.id) = s.map (·.id) := by
  rcases markFileConsumed_cases s a now with hM | ⟨j, hj, hM⟩
  · rw [hM]
  · rw [hM]; exact idsOf_setJob s _

theorem idsOf_deleteRemoteFile (s : Store) (a : String) (now : Nat) (ca : Bool) :
    (deleteRemoteFile s a now ca).map (·.id) = s.map (·.id) := by
  rcases deleteRemoteFile_cases s a now ca with hM | ⟨j, hj, hrid, hM⟩
  · rw [hM]
  · rw [hM]; exact idsOf_setJob s _

theorem idsOf_cleanupAfterDelivery (fs : List String) (s : Store) (a f : String)
    (now : Nat) (ca : Bool) :
    (cleanupAfterDelivery fs s a f now ca).2.map (·.id) = s.map (·.id) := by
  show (markFileConsumed (deleteRemoteFile s a now ca) a now).map (·.id)
    = s.map (·.id)
  rw [idsOf_markFileConsumed, idsOf_deleteRemoteFile]

theorem idsOf_manualCleanupFallback (s : Store) (fs : List String) (snap : Job)
    (a : String) (now : Nat) (ca : Bool) :
    (manualCleanupFallback s fs snap a now ca).1.map (·.id) = s.map (·.id) := by
  unfold manualCleanupFallback
  dsimp only
  by_cases hst : snap.status = Status.completed ∨ snap.status = Status.delivering
      ∨ snap.status = Status.downloaded
  · rw [if_pos hst, idsOf_markFileConsumed, idsOf_deleteRemoteFile]
  · rw [if_neg hst, idsOf_deleteRemoteFile]

theorem idsOf_reqStep (b : String) (now : Nat) (ca : Bool) (store : Store)
    (fs : List String) (r : Req) :
    (reqStep b now ca store fs r).1.map (·.id) = store.map (·.id) := by
  unfold reqStep
  cases hph : r.phase with
  | pending =>
    dsimp only
    cases hg : downloadFileGate store fs b r.autoDelete with
    | error e => rfl
    | ok jf => rfl
  | passed f =>
    dsimp only
    exact idsOf_markDelivering store b now
  | marked f =>
    dsimp only
    by_cases hmem : f ∈ fs
    · rw [if_pos hmem]
    · rw [if_neg hmem]
  | served f =>
    dsimp only
    by_cases had : r.autoDelete = true
    · rw [if_pos had]
      exact idsOf_cleanupAfterDelivery fs store b f now ca
    · rw [if_neg had]
      exact idsOf_markDownloaded store b now
  | done o => rfl

theorem idsOf_cleanupStep (store : Store) (fs : List String) (b : String)
    (now : Nat) (ca : Bool) (ph : CPhase) :
    (cleanupStep store fs b now ca ph).1.map (·.id) = store.map (·.id) := by
  cases ph with
  | cInit => rfl
  | cDispose f =>
    show (cleanupAfterDelivery fs store b f now ca).2.map (·.id)
      = store.map (·.id)
    exact idsOf_cleanupAfterDelivery fs store b f now ca
  | cFallback snap =>
    show (manualCleanupFallback store fs snap b now ca).1.map (·.id)
      = store.map (·.id)
    exact idsOf_manualCleanupFallback store fs snap b now ca
  | cDone o => rfl

theorem idsOf_processFinishStep (store : Store) (b : String) (now : Nat)
    (ext : Except String String) (relay : RelayOutcome) :
    (processFinishStep store b now ext relay).map (·.id) = store.map (·.id) := by
  unfold processFinishStep
  cases ext with
  | error exc =>
    cases hg : getJob store b with
    | none => rfl
    | some j1 => exact idsOf_setJob store _
  | ok f =>
    cases hg : getJob store b with
    | none => rfl
    | some j1 => exact idsOf_setJob store _

theorem idsOf_processStep (store : Store) (fs : List String) (b : String)
    (now : Nat) (ext : Except String String) (relay : RelayOutcome) (ph : PPhase) :
    (processStep store fs b now ext relay ph).1.map (·.id) = store.map (·.id) := by
  cases ph with
  | pCheck =>
    show ((match getJob store b with
      | none => (store, fs, PPhase.pDone)
      | some _ => (store, fs, PPhase.pMark)
      : Store × List String × PPhase)).1.map (·.id) = store.map (·.id)
    cases hg : getJob store b with
    | none => rfl
    | some j => rfl
  | pMark =>
    show ((match getJob store b with
      | none => store
      | some j => setJob store (downloadingRecord j now) : Store)).map (·.id)
      = store.map (·.id)
    cases hg : getJob store b with
    | none => rfl
    | some j => exact idsOf_setJob store _
  | pRun => exact idsOf_processFinishStep store b now ext relay
  | pDone => rfl

theorem getJob_some_of_ids {s s2 : Store} {a : String} {j : Job}
    (hids : s2.map (·.id) = s.map (·.id)) (h : getJob s a = some j) :
    ∃ j2, getJob s2 a = some j2 := by
  cases hg : getJob s2 a with
  | some j2 => exact ⟨j2, rfl⟩
  | none =>
    have hno := getJob_eq_none_iff.mp hg
    rw [hids] at hno
    exact absurd (mem_ids_of_getJob h) hno

/-! ## Status bookkeeping -/

theorem statusAllowed_false {st : Status} (h1 : st ≠ Status.completed)
    (h2 : st ≠ Status.downloaded) (ad : Bool) : statusAllowed st ad = false := by
  unfold statusAllowed
  cases st <;> cases ad <;>
    first
      | rfl
      | exact absurd rfl h1
      | exact absurd rfl h2

theorem markyStatus_iff {st : Status} :
    markyStatus st = true
    ↔ (st = Status.completed ∨ st = Status.delivering
        ∨ st = Status.downloaded) := by
  unfold markyStatus
  cases st <;> decide

theorem gate_error_of_terminal {s : Store} {fs : List String} {a : String}
    {ad : Bool} {j : Job} (hj : getJob s a = some j)
    (hterm : j.status = Status.failed ∨ j.status = Status.delivered) :
    ∃ e, downloadFileGate s fs a ad = Except.error e := by
  rcases hterm with hst | hst
  · refine ⟨DeliveryError.notReady409 j.status, gate_notReady hj ?_ ?_ ?_⟩
    · rw [hst]; intro h; exact Status.noConfusion h
    · rw [hst]; intro h; exact Status.noConfusion h
    · refine statusAllowed_false ?_ ?_ ad <;> rw [hst] <;> intro h <;>
        exact Status.noConfusion h
  · exact ⟨DeliveryError.gone410, gate_delivered hj hst⟩

/-! ## `DangerFree` transfer -/

theorem dangerFree_set_d {w : FSys} {a : String} {s2 : Store} {f2 : List String}
    {i : Nat} {e : DThread} (hdf : DangerFree a w)
    (hnew : e.jid = a → dquiet e.req.phase = true) :
    DangerFree a { w with store := s2, fs := f2, dthreads := w.dthreads.set i e } := by
  refine ⟨fun t ht hja => ?_, hdf.2⟩
  rcases List.mem_or_eq_of_mem_set ht with hold | rfl
  · exact hdf.1 t hold hja
  · exact hnew hja

theorem dangerFree_set_c {w : FSys} {a : String} {s2 : Store} {f2 : List String}
    {i : Nat} {e : CThread} (hdf : DangerFree a w)
    (hnew : e.jid = a → cquiet e.phase = true) :
    DangerFree a { w with store := s2, fs := f2, cthreads := w.cthreads.set i e } := by
  refine ⟨hdf.1, fun t ht hja => ?_⟩
  rcases List.mem_or_eq_of_mem_set ht with hold | rfl
  · exact hdf.2 t hold hja
  · exact hnew hja

theorem dangerFree_append_d {w : FSys} {a : String} {e : DThread}
    (hdf : DangerFree a w) (hnew : e.jid = a → dquiet e.req.phase = true) :
    DangerFree a { w with dthreads := w.dthreads ++ [e] } := by
  refine ⟨fun t ht hja => ?_, hdf.2⟩
  rcases List.mem_append.mp ht with hold | hsing
  · exact hdf.1 t hold hja
  · obtain rfl := List.mem_singleton.mp hsing
    exact hnew hja

theorem dangerFree_append_c {w : FSys} {a : String} {e : CThread}
    (hdf : DangerFree a w) (hnew : e.jid = a → cquiet e.phase = true) :
    DangerFree a { w with cthreads := w.cthreads ++ [e] } := by
  refine ⟨hdf.1, fun t ht hja => ?_⟩
  rcases List.mem_append.mp ht with hold | hsing
  · exact hdf.2 t hold hja
  · obtain rfl := List.mem_singleton.mp hsing
    exact hnew hja

theorem dangerFree_dthread_ne {w : FSys} {a : String} {t : DThread}
    (hdf : DangerFree a w) (hm : t ∈ w.dthreads)
    (hnq : dquiet t.req.phase = false) : t.jid ≠ a := by
  intro hja
  have h := hdf.1 t hm hja
  rw [hnq] at h
  exact Bool.noConfusion h

theorem dangerFree_cthread_ne {w : FSys} {a : String} {t : CThread}
    (hdf : DangerFree a w) (hm : t ∈ w.cthreads)
    (hnq : cquiet t.phase = false) : t.jid ≠ a := by
  intro hja
  have h := hdf.2 t hm hja
  rw [hnq] at h
  exact Bool.noConfusion h

/-! ## `jobFInv` record lemmas -/

theorem jobFInv_transfer {w w' : FSys} {j : Job} (h : jobFInv w j)
    (hdf : DangerFree j.id w → DangerFree j.id w') : jobFInv w' j := by
  obtain ⟨h1, h2, h3⟩ := h
  exact ⟨fun hs => ⟨(h1 hs).1, (h1 hs).2.1, hdf (h1 hs).2.2⟩,
    fun hs => ⟨(h2 hs).1, (h2 hs).2.1, hdf (h2 hs).2.2⟩, h3⟩

theorem jobFInv_status_other {w : FSys} {j : Job}
    (h1 : j.status ≠ Status.queued) (h2 : j.status ≠ Status.downloading)
    (h3 : j.status ≠ Status.failed) (h4 : j.status ≠ Status.delivered) :
    jobFInv w j := by
  refine ⟨fun hs => ?_, fun hs => absurd hs h3, fun hs => absurd hs h4⟩
  rcases hs with hs | hs
  · exact absurd hs h1
  · exact absurd hs h2

theorem jobFInv_deliveringRecord (w : FSys) (j : Job) (now : Nat) :
    jobFInv w { j with status := Status.delivering, updated_at := now } := by
  refine jobFInv_status_other ?_ ?_ ?_ ?_ <;> intro h <;> exact Status.noConfusion h

theorem jobFInv_downloadedRecord (w : FSys) (j : Job) (now : Nat) :
    jobFInv w { j with status := Status.downloaded, updated_at := now } := by
  refine jobFInv_status_other ?_ ?_ ?_ ?_ <;> intro h <;> exact Status.noConfusion h

theorem jobFInv_consumedRecord (w : FSys) (j : Job) (now : Nat) :
    jobFInv w
      { j with
        status := Status.delivered
        output_file := none
        download_url := none
        remote_file_id := none
        remote_file_url := none
        remote_file_view_url := none
        updated_at := now } := by
  refine ⟨fun hs => ?_, fun hs => ?_, fun hs => ⟨rfl, rfl, rfl, rfl, rfl⟩⟩
  · rcases hs with h | h <;> exact Status.noConfusion h
  · exact Status.noConfusion hs

theorem jobFInv_clearRecord {w w' : FSys} {j : Job} (hj : jobFInv w j)
    (hrid : j.remote_file_id ≠ none) (now : Nat) :
    jobFInv w'
      { j with
        remote_file_id := none
        remote_file_url := none
        remote_file_view_url := none
        updated_at := now } := by
  have hq : j.status ≠ Status.queued := fun h =>
    hrid (hj.1 (Or.inl h)).2.1
  have hd : j.status ≠ Status.downloading := fun h =>
    hrid (hj.1 (Or.inr h)).2.1
  have hf : j.status ≠ Status.failed := fun h => hrid (hj.2.1 h).2.1
  have hdel : j.status ≠ Status.delivered := fun h => hrid (hj.2.2 h).2.2.1
  exact jobFInv_status_other hq hd hf hdel

theorem jobFInv_downloadingRecord {w' : FSys} {j : Job}
    (hof : j.output_file = none) (hrid : j.remote_file_id = none)
    (hdf : DangerFree j.id w') (now : Nat) :
    jobFInv w' (downloadingRecord j now) := by
  refine ⟨fun hs => ⟨hof, hrid, hdf⟩, fun hs => ?_, fun hs => ?_⟩
  · exact Status.noConfusion (show Status.downloading = Status.failed from hs)
  · exact Status.noConfusion (show Status.downloading = Status.delivered from hs)

theorem jobFInv_failedRecord {w' : FSys} {j1 : Job} (hof : j1.output_file = none)
    (hdf : DangerFree j1.id w') (exc : String) (now : Nat) :
    jobFInv w' (failedRecord j1 exc now) := by
  refine ⟨fun hs => ?_, fun hs => ⟨hof, rfl, hdf⟩, fun hs => ?_⟩
  · rcases hs with h | h <;> exact Status.noConfusion h
  · exact Status.noConfusion hs

theorem jobFInv_completedRecord (w' : FSys) (b : String) (j1 : Job) (f : String)
    (relay : RelayOutcome) (now : Nat) :
    jobFInv w' (completedRecord b j1 f relay now) := by
  have hst := completedRecord_status b j1 f relay now
  refine jobFInv_status_other ?_ ?_ ?_ ?_ <;> rw [hst] <;> intro h <;>
    exact Status.noConfusion h

theorem jobFInv_mkJob (w' : FSys) (jid url op fmt : String) (ffm : Option String)
    (now : Nat) (hdf : DangerFree jid w') :
    jobFInv w' (mkJob jid url op fmt ffm now) := by
  refine ⟨fun hs => ⟨rfl, rfl, hdf⟩, fun hs => ?_, fun hs => ?_⟩
  · exact Status.noConfusion (show Status.queued = Status.failed from hs)
  · exact Status.noConfusion (show Status.queued = Status.delivered from hs)

/-! ## `fiveNull` record lemmas -/

theorem fiveNull_statusOnly {j : Job} (h : fiveNull j) (st : Status) (now : Nat) :
    fiveNull { j with status := st, updated_at := now } := h

theorem fiveNull_downloadingRecord {j : Job} (h : fiveNull j) (now : Nat) :
    fiveNull (downloadingRecord j now) := h

theorem fiveNull_failedRecord {j1 : Job} (h : j1.output_file = none)
    (exc : String) (now : Nat) : fiveNull (failedRecord j1 exc now) :=
  ⟨h, rfl, rfl, rfl, rfl⟩

theorem fiveNull_consumedRecord (j : Job) (now : Nat) :
    fiveNull
      { j with
        status := Status.delivered
        output_file := none
        download_url := none
        remote_file_id := none
        remote_file_url := none
        remote_file_view_url := none
        updated_at := now } :=
  ⟨rfl, rfl, rfl, rfl, rfl⟩

theorem fiveNull_clearRecord {j : Job} (h : fiveNull j) (now : Nat) :
    fiveNull
      { j with
        remote_file_id := none
        remote_file_url := none
        remote_file_view_url := none
        updated_at := now } :=
  ⟨h.1, h.2.1, rfl, rfl, rfl⟩

theorem getJob_setJob_self2 {s : Store} {jid : String} {j j2 : Job}
    (h : getJob s jid = some j) (h2 : j.id = jid) (h3 : j2.id = j.id) :
    getJob (setJob s j2) jid = some j2 :=
  getJob_setJob_self h (h3.trans h2)

/-! ## `pcInv` helpers -/

theorem pcInv_mono {w w' : FSys} {t : PThread} (h : pcInv w t)
    (hst : getJob w'.store t.jid = getJob w.store t.jid) : pcInv w' t := by
  obtain ⟨j, hj, h1, h2⟩ := h
  exact ⟨j, by rw [hst, hj], h1, h2⟩

theorem pcInv_done {w : FSys} {t : PThread} (hph : t.phase = PPhase.pDone)
    {j : Job} (hj : getJob w.store t.jid = some j) : pcInv w t := by
  refine ⟨j, hj, fun h => ?_, fun h => ?_⟩
  · rcases h with h | h <;> rw [hph] at h <;> exact PPhase.noConfusion h
  · rw [hph] at h
    exact PPhase.noConfusion h

theorem pcInv_pDone_of_status {w : FSys} {t : PThread} (h : pcInv w t)
    {j : Job} (hj : getJob w.store t.jid = some j)
    (h1 : j.status ≠ Status.queued) (h2 : j.status ≠ Status.downloading) :
    t.phase = PPhase.pDone := by
  obtain ⟨j2, hj2, hq, hr⟩ := h
  rw [hj] at hj2
  obtain rfl := Option.some.inj hj2
  cases hph : t.phase with
  | pCheck => exact absurd (hq (Or.inl hph)) h1
  | pMark => exact absurd (hq (Or.inr hph)) h1
  | pRun => exact absurd (hr hph) h2
  | pDone => rfl

theorem pAllDone_of_status {w : FSys} {a : String} {j : Job}
    (hpc : ∀ (k : Nat) (t : PThread), w.pthreads[k]? = some t → pcInv w t)
    (hj : getJob w.store a = some j) (h1 : j.status ≠ Status.queued)
    (h2 : j.status ≠ Status.downloading) : pAllDone a w := by
  intro t ht hja
  obtain ⟨k, hk⟩ := List.getElem?_of_mem ht
  refine pcInv_pDone_of_status (hpc k t hk) ?_ h1 h2
  rw [hja]
  exact hj

/-! ## Preservation of the global invariant, constructor by constructor -/

theorem jids_set_pthreads {l : List PThread} {i : Nat} {t : PThread}
    (hi : l[i]? = some t) (ph2 : PPhase) :
    (l.set i ⟨t.jid, ph2⟩).map (·.jid) = l.map (·.jid) := by
  rw [List.map_set]
  exact set_self_of_getIdx (by rw [List.getElem?_map, hi]; rfl)

theorem FInv_fschange {w : FSys} (hinv : FInv w) (fs2 : List String) :
    FInv { w with fs := fs2 } := hinv

theorem FInv_spawnDelivery {w : FSys} (hinv : FInv w) (jid : String) (ad : Bool) :
    FInv { w with dthreads := w.dthreads ++ [⟨jid, Req.fresh ad⟩] } := by
  obtain ⟨hnd, hjobs, hpc, hpnd, hdx, hcx⟩ := hinv
  refine ⟨hnd, ?_, ?_, hpnd, ?_, hcx⟩
  · intro j hj
    refine jobFInv_transfer (hjobs j hj) fun hdf => ?_
    exact dangerFree_append_d hdf fun _ => rfl
  · intro k t hk
    exact pcInv_mono (hpc k t hk) rfl
  · intro t ht
    rcases List.mem_append.mp ht with hold | hsing
    · exact hdx t hold
    · obtain rfl := List.mem_singleton.mp hsing
      exact Or.inl rfl

theorem FInv_spawnCleanup {w : FSys} (hinv : FInv w) (jid : String) :
    FInv { w with cthreads := w.cthreads ++ [⟨jid, CPhase.cInit⟩] } := by
  obtain ⟨hnd, hjobs, hpc, hpnd, hdx, hcx⟩ := hinv
  refine ⟨hnd, ?_, ?_, hpnd, hdx, ?_⟩
  · intro j hj
    refine jobFInv_transfer (hjobs j hj) fun hdf => ?_
    exact dangerFree_append_c hdf fun _ => rfl
  · intro k t hk
    exact pcInv_mono (hpc k t hk) rfl
  · intro t ht hsn
    rcases List.mem_append.mp ht with hold | hsing
    · exact hcx t hold hsn
    · obtain rfl := List.mem_singleton.mp hsing
      exact absurd hsn (by intro h; exact Bool.noConfusion h)

theorem FInv_create {w : FSys} (hinv : FInv w) (jid url op fmt : String)
    (ffm : Option String) (now : Nat) (hfresh : getJob w.store jid = none) :
    FInv { w with
      store := createJob w.store jid url op fmt ffm now
      pthreads := w.pthreads ++ [⟨jid, PPhase.pCheck⟩] } := by
  obtain ⟨hnd, hjobs, hpc, hpnd, hdx, hcx⟩ := hinv
  have hdfj : DangerFree jid w := by
    constructor
    · intro t ht hja
      rcases hdx t ht with hq | ⟨j0, hj0⟩
      · exact hq
      · rw [hja, hfresh] at hj0
        exact Option.noConfusion hj0
    · intro t ht hja
      cases hsn : cSnapped t.phase with
      | false =>
        cases hph : t.phase with
        | cInit => rfl
        | cDone o => rfl
        | cDispose f =>
          rw [hph] at hsn
          exact Bool.noConfusion hsn
        | cFallback snap =>
          rw [hph] at hsn
          exact Bool.noConfusion hsn
      | true =>
        obtain ⟨j0, hj0⟩ := hcx t ht hsn
        rw [hja, hfresh] at hj0
        exact Option.noConfusion hj0
  refine ⟨nodup_ids_createJob hnd hfresh, ?_, ?_, ?_, ?_, ?_⟩
  · intro j hj
    rcases List.mem_append.mp hj with hold | hsing
    · exact jobFInv_transfer (hjobs j hold) fun hdf => hdf
    · obtain rfl := List.mem_singleton.mp hsing
      exact jobFInv_mkJob _ jid url op fmt ffm now hdfj
  · intro k t hk
    have ht : t ∈ w.pthreads ++ [⟨jid, PPhase.pCheck⟩] := mem_of_getIdx hk
    rcases List.mem_append.mp ht with hold | hsing
    · obtain ⟨k2, hk2⟩ := List.getElem?_of_mem hold
      obtain ⟨j2, hj2, hq, hr⟩ := hpc k2 t hk2
      exact ⟨j2, getJob_append hj2, hq, hr⟩
    · obtain rfl := List.mem_singleton.mp hsing
      refine ⟨mkJob jid url op fmt ffm now, getJob_createJob_fresh hfresh,
        fun _ => rfl, fun hph => ?_⟩
      exact PPhase.noConfusion (show PPhase.pCheck = PPhase.pRun from hph)
  · rw [List.map_append]
    refine List.Nodup.append hpnd (by simp) ?_
    intro a ha hb
    simp only [List.map_cons, List.map_nil, List.mem_singleton] at hb
    subst hb
    rcases List.mem_map.mp ha with ⟨t, ht, hjid⟩
    obtain ⟨k2, hk2⟩ := List.getElem?_of_mem ht
    obtain ⟨j2, hj2, h1, h2⟩ := hpc k2 t hk2
    rw [hjid, hfresh] at hj2
    exact Option.noConfusion hj2
  · intro t ht
    rcases hdx t ht with hq | ⟨j0, hj0⟩
    · exact Or.inl hq
    · exact Or.inr ⟨j0, getJob_append hj0⟩
  · intro t ht hsn
    obtain ⟨j0, hj0⟩ := hcx t ht hsn
    exact ⟨j0, getJob_append hj0⟩

theorem FInv_pstep {w : FSys} {i : Nat} {t : PThread} (hinv : FInv w)
    (now : Nat) (ext : Except String String) (relay : RelayOutcome)
    (hi : w.pthreads[i]? = some t) :
    FInv { w with
      store := (processStep w.store w.fs t.jid now ext relay t.phase).1
      fs := (processStep w.store w.fs t.jid now ext relay t.phase).2.1
      pthreads := w.pthreads.set i
        ⟨t.jid, (processStep w.store w.fs t.jid now ext relay t.phase).2.2⟩ } := by
  obtain ⟨hnd, hjobs, hpc, hpnd, hdx, hcx⟩ := hinv
  obtain ⟨j0, hj0, hq0, hr0⟩ := hpc i t hi
  cases hph : t.phase with
  | pCheck =>
    have hP : processStep w.store w.fs t.jid now ext relay PPhase.pCheck
        = (w.store, w.fs, PPhase.pMark) := by
      show ((match getJob w.store t.jid with
        | none => (w.store, w.fs, PPhase.pDone)
        | some _ => (w.store, w.fs, PPhase.pMark)
        : Store × List String × PPhase)) = (w.store, w.fs, PPhase.pMark)
      rw [hj0]
    rw [hP]
    refine ⟨hnd, ?_, ?_, ?_, hdx, hcx⟩
    · intro j hj
      exact jobFInv_transfer (hjobs j hj) fun hdf => hdf
    · intro k t2 hk
      by_cases hki : i = k
      · subst hki
        have hlt : i < w.pthreads.length := (List.getElem?_eq_some.mp hi).1
        rw [List.getElem?_set_self hlt] at hk
        obtain rfl := Option.some.inj hk
        refine ⟨j0, hj0, fun _ => hq0 (Or.inl hph), fun h => ?_⟩
        exact PPhase.noConfusion (show PPhase.pMark = PPhase.pRun from h)
      · rw [List.getElem?_set_ne hki] at hk
        exact pcInv_mono (hpc k t2 hk) rfl
    · rw [jids_set_pthreads hi]
      exact hpnd
  | pMark =>
    have hqueued : j0.status = Status.queued := hq0 (Or.inr hph)
    have hji := hjobs j0 (getJob_mem hj0)
    obtain ⟨hof, hrid, hdfq⟩ := hji.1 (Or.inl hqueued)
    have hidj : j0.id = t.jid := getJob_id hj0
    have hP : processStep w.store w.fs t.jid now ext relay PPhase.pMark
        = (setJob w.store (downloadingRecord j0 now), w.fs, PPhase.pRun) := by
      show (((match getJob w.store t.jid with
        | none => w.store
        | some j => setJob w.store (downloadingRecord j now) : Store)), w.fs,
        PPhase.pRun)
        = (setJob w.store (downloadingRecord j0 now), w.fs, PPhase.pRun)
      rw [hj0]
    rw [hP]
    refine ⟨nodup_ids_setJob hnd, ?_, ?_, ?_, ?_, ?_⟩
    · intro j hj
      rcases mem_setJob hj with rfl | hold
      · exact jobFInv_downloadingRecord hof hrid hdfq now
      · exact jobFInv_transfer (hjobs j hold) fun hdf => hdf
    · intro k t2 hk
      by_cases hki : i = k
      · subst hki
        have hlt : i < w.pthreads.length := (List.getElem?_eq_some.mp hi).1
        rw [List.getElem?_set_self hlt] at hk
        obtain rfl := Option.some.inj hk
        refine ⟨downloadingRecord j0 now,
          getJob_setJob_self hj0 (show j0.id = t.jid from hidj), fun h => ?_,
          fun _ => rfl⟩
        rcases h with h | h <;>
          exact PPhase.noConfusion (show PPhase.pRun = _ from h)
      · rw [List.getElem?_set_ne hki] at hk
        obtain ⟨j2, hj2, hq2, hr2⟩ := hpc k t2 hk
        by_cases hjb : t2.jid = t.jid
        · exact absurd (nodup_getIdx_inj hpnd hi hk hjb.symm) hki
        · refine ⟨j2, ?_, hq2, hr2⟩
          rw [getJob_setJob_ne (show (downloadingRecord j0 now).id ≠ t2.jid by
            show j0.id ≠ t2.jid
            rw [hidj]
            exact fun h => hjb (h.symm))]
          exact hj2
    · rw [jids_set_pthreads hi]
      exact hpnd
    · intro t2 ht2
      rcases hdx t2 ht2 with hq | ⟨jj, hjj⟩
      · exact Or.inl hq
      · exact Or.inr (getJob_some_of_ids (idsOf_setJob _ _) hjj)
    · intro t2 ht2 hsn
      obtain ⟨jj, hjj⟩ := hcx t2 ht2 hsn
      exact getJob_some_of_ids (idsOf_setJob _ _) hjj
  | pRun =>
    have hidj : j0.id = t.jid := getJob_id hj0
    have hfin : ∃ r, r.id = t.jid
        ∧ processFinishStep w.store t.jid now ext relay = setJob w.store r
        ∧ jobFInv { w with
            store := (processStep w.store w.fs t.jid now ext relay PPhase.pRun).1
            fs := (processStep w.store w.fs t.jid now ext relay PPhase.pRun).2.1
            pthreads := w.pthreads.set i
              ⟨t.jid, (processStep w.store w.fs t.jid now ext relay
                PPhase.pRun).2.2⟩ } r := by
      have hdown : j0.status = Status.downloading := hr0 hph
      have hji := hjobs j0 (getJob_mem hj0)
      obtain ⟨hof, hrid, hdfq⟩ := hji.1 (Or.inr hdown)
      cases ext with
      | error exc =>
        refine ⟨failedRecord j0 exc now, hidj, ?_, ?_⟩
        · show ((match getJob w.store t.jid with
            | none => w.store
            | some j1 => setJob w.store (failedRecord j1 exc now) : Store))
            = setJob w.store (failedRecord j0 exc now)
          rw [hj0]
        · exact jobFInv_failedRecord hof hdfq exc now
      | ok f =>
        refine ⟨completedRecord t.jid j0 f relay now, ?_, ?_, ?_⟩
        · rw [completedRecord_id]
          exact hidj
        · show ((match getJob w.store t.jid with
            | none => w.store
            | some j1 => setJob w.store (completedRecord t.jid j1 f relay now)
            : Store))
            = setJob w.store (completedRecord t.jid j0 f relay now)
          rw [hj0]
        · exact jobFInv_completedRecord _ t.jid j0 f relay now
    obtain ⟨r, hrid2, hF, hrinv⟩ := hfin
    have hstore : (processStep w.store w.fs t.jid now ext relay PPhase.pRun).1
        = setJob w.store r := hF
    refine ⟨?_, ?_, ?_, ?_, ?_, ?_⟩
    · show (((processStep w.store w.fs t.jid now ext relay
        PPhase.pRun).1).map (·.id)).Nodup
      rw [hstore]
      exact nodup_ids_setJob hnd
    · intro j hj
      rw [hstore] at hj
      rcases mem_setJob hj with rfl | hold
      · exact hrinv
      · exact jobFInv_transfer (hjobs j hold) fun hdf => hdf
    · intro k t2 hk
      by_cases hki : i = k
      · subst hki
        have hlt : i < w.pthreads.length := (List.getElem?_eq_some.mp hi).1
        rw [List.getElem?_set_self hlt] at hk
        obtain rfl := Option.some.inj hk
        refine pcInv_done rfl (j := r) ?_
        show getJob (processStep w.store w.fs t.jid now ext relay
          PPhase.pRun).1 t.jid = some r
        rw [hstore]
        exact getJob_setJob_self hj0 hrid2
      · rw [List.getElem?_set_ne hki] at hk
        obtain ⟨j2, hj2, hq2, hr2⟩ := hpc k t2 hk
        by_cases hjb : t2.jid = t.jid
        · exact absurd (nodup_getIdx_inj hpnd hi hk hjb.symm) hki
        · refine ⟨j2, ?_, hq2, hr2⟩
          show getJob (processStep w.store w.fs t.jid now ext relay
            PPhase.pRun).1 t2.jid = some j2
          rw [hstore, getJob_setJob_ne (show r.id ≠ t2.jid by
            rw [hrid2]
            exact fun h => hjb (h.symm))]
          exact hj2
    · rw [jids_set_pthreads hi]
      exact hpnd
    · intro t2 ht2
      rcases hdx t2 ht2 with hq | ⟨jj, hjj⟩
      · exact Or.inl hq
      · refine Or.inr ?_
        show ∃ j2, getJob (processStep w.store w.fs t.jid now ext relay
          PPhase.pRun).1 t2.jid = some j2
        rw [hstore]
        exact getJob_some_of_ids (idsOf_setJob _ _) hjj
    · intro t2 ht2 hsn
      obtain ⟨jj, hjj⟩ := hcx t2 ht2 hsn
      show ∃ j2, getJob (processStep w.store w.fs t.jid now ext relay
        PPhase.pRun).1 t2.jid = some j2
      rw [hstore]
      exact getJob_some_of_ids (idsOf_setJob _ _) hjj
  | pDone =>
    refine ⟨hnd, ?_, ?_, ?_, hdx, hcx⟩
    · intro j hj
      exact jobFInv_transfer (hjobs j hj) fun hdf => hdf
    · intro k t2 hk
      by_cases hki : i = k
      · subst hki
        have hlt : i < w.pthreads.length := (List.getElem?_eq_some.mp hi).1
        rw [List.getElem?_set_self hlt] at hk
        obtain rfl := Option.some.inj hk
        exact pcInv_done rfl hj0
      · rw [List.getElem?_set_ne hki] at hk
        exact pcInv_mono (hpc k t2 hk) rfl
    · rw [jids_set_pthreads hi]
      exact hpnd

theorem FInv_cstep {w : FSys} {i : Nat} {t : CThread} (hinv : FInv w)
    (now : Nat) (ca : Bool) (hi : w.cthreads[i]? = some t) :
    FInv { w with
      store := (cleanupStep w.store w.fs t.jid now ca t.phase).1
      fs := (cleanupStep w.store w.fs t.jid now ca t.phase).2.1
      cthreads := w.cthreads.set i
        ⟨t.jid, (cleanupStep w.store w.fs t.jid now ca t.phase).2.2⟩ } := by
  obtain ⟨hnd, hjobs, hpc, hpnd, hdx, hcx⟩ := hinv
  cases hph : t.phase with
  | cInit =>
    refine ⟨hnd, ?_, ?_, hpnd, hdx, ?_⟩
    · intro j hj
      have hji := hjobs j hj
      have hgj : getJob w.store j.id = some j := getJob_of_mem_nodup hnd hj
      have hquiet : ∀ ho : j.output_file = none,
          (markyStatus j.status = false) →
          ((t.jid = j.id →
            cquiet (cleanupCheckStep w.store w.fs t.jid) = true)) := by
        intro ho hmk hja
        rw [hja]
        unfold cleanupCheckStep
        rw [hgj]
        dsimp only
        rw [ho]
        show (!markyStatus j.status) = true
        rw [hmk]
        rfl
      refine ⟨fun hs => ?_, fun hs => ?_, hji.2.2⟩
      · obtain ⟨ho, hr2, hdf⟩ := hji.1 hs
        refine ⟨ho, hr2, dangerFree_set_c hdf (hquiet ho ?_)⟩
        rcases hs with h | h <;> rw [h] <;> rfl
      · obtain ⟨ho, hr2, hdf⟩ := hji.2.1 hs
        refine ⟨ho, hr2, dangerFree_set_c hdf (hquiet ho ?_)⟩
        rw [hs]
        rfl
    · intro k t2 hk
      exact pcInv_mono (hpc k t2 hk) rfl
    · intro t2 ht2 hsn
      rcases List.mem_or_eq_of_mem_set ht2 with hold | rfl
      · exact hcx t2 hold hsn
      · cases hg : getJob w.store t.jid with
        | some j2 => exact ⟨j2, hg⟩
        | none =>
          have hsn2 : cSnapped (cleanupCheckStep w.store w.fs t.jid) = true := hsn
          unfold cleanupCheckStep at hsn2
          rw [hg] at hsn2
          exact absurd hsn2 (by intro h; exact Bool.noConfusion h)
  | cDispose f =>
    have hne2 : ∀ a, DangerFree a w → t.jid ≠ a := fun a hdf =>
      dangerFree_cthread_ne hdf (mem_of_getIdx hi) (by rw [hph]; rfl)
    have hids : ((cleanupAfterDelivery w.fs w.store t.jid f now ca).2).map (·.id)
        = w.store.map (·.id) := idsOf_cleanupAfterDelivery w.fs w.store t.jid f now ca
    refine ⟨?_, ?_, ?_, hpnd, ?_, ?_⟩
    · show (((cleanupAfterDelivery w.fs w.store t.jid f now ca).2).map (·.id)).Nodup
      rw [hids]
      exact hnd
    · intro j hj
      have hj2 : j ∈ markFileConsumed (deleteRemoteFile w.store t.jid now ca)
          t.jid now := hj
      rcases markFileConsumed_cases (deleteRemoteFile w.store t.jid now ca)
          t.jid now with hC | ⟨jc, hjc, hC⟩
      all_goals rw [hC] at hj2
      case inr.intro.intro =>
        rcases mem_setJob hj2 with rfl | hj3
        · exact jobFInv_consumedRecord _ jc now
        · rcases deleteRemoteFile_cases w.store t.jid now ca
              with hD | ⟨jr, hjr, hridr, hD⟩
          all_goals rw [hD] at hj3
          case inr.intro.intro.intro =>
            rcases mem_setJob hj3 with rfl | hj4
            · exact jobFInv_clearRecord (hjobs jr (getJob_mem hjr)) hridr now
            · exact jobFInv_transfer (hjobs j hj4) fun hdf =>
                dangerFree_set_c hdf fun hja => absurd hja (hne2 j.id hdf)
          case inl =>
            exact jobFInv_transfer (hjobs j hj3) fun hdf =>
              dangerFree_set_c hdf fun hja => absurd hja (hne2 j.id hdf)
      case inl =>
        rcases deleteRemoteFile_cases w.store t.jid now ca
            with hD | ⟨jr, hjr, hridr, hD⟩
        all_goals rw [hD] at hj2
        case inr.intro.intro.intro =>
          rcases mem_setJob hj2 with rfl | hj4
          · exact jobFInv_clearRecord (hjobs jr (getJob_mem hjr)) hridr now
          · exact jobFInv_transfer (hjobs j hj4) fun hdf =>
              dangerFree_set_c hdf fun hja => absurd hja (hne2 j.id hdf)
        case inl =>
          exact jobFInv_transfer (hjobs j hj2) fun hdf =>
            dangerFree_set_c hdf fun hja => absurd hja (hne2 j.id hdf)
    · intro k t2 hk
      obtain ⟨j2, hj2, hq2, hr2⟩ := hpc k t2 hk
      by_cases hjb : t2.jid = t.jid
      · rw [hjb] at hj2
        have hj2id : j2.id = t.jid := getJob_id hj2
        have hnq : j2.status ≠ Status.queued := by
          intro hs
          have hdf := ((hjobs j2 (getJob_mem hj2)).1 (Or.inl hs)).2.2
          exact hne2 j2.id hdf hj2id.symm
        have hndl : j2.status ≠ Status.downloading := by
          intro hs
          have hdf := ((hjobs j2 (getJob_mem hj2)).1 (Or.inr hs)).2.2
          exact hne2 j2.id hdf hj2id.symm
        have hpd : t2.phase = PPhase.pDone :=
          pcInv_pDone_of_status ⟨j2, by rw [hjb]; exact hj2, hq2, hr2⟩
            (by rw [hjb]; exact hj2) hnq hndl
        obtain ⟨j3, hj3⟩ := getJob_some_of_ids hids hj2
        refine pcInv_done hpd (j := j3) ?_
        show getJob (cleanupAfterDelivery w.fs w.store t.jid f now ca).2
          t2.jid = some j3
        rw [hjb]
        exact hj3
      · refine ⟨j2, ?_, hq2, hr2⟩
        show getJob (cleanupAfterDelivery w.fs w.store t.jid f now ca).2
          t2.jid = some j2
        rw [getJob_cleanupAfterDelivery_ne fun h => hjb (h.symm)]
        exact hj2
    · intro t2 ht2
      rcases hdx t2 ht2 with hq | ⟨jj, hjj⟩
      · exact Or.inl hq
      · exact Or.inr (getJob_some_of_ids hids hjj)
    · intro t2 ht2 hsn
      rcases List.mem_or_eq_of_mem_set ht2 with hold | rfl
      · obtain ⟨jj, hjj⟩ := hcx t2 hold hsn
        exact getJob_some_of_ids hids hjj
      · exact absurd hsn (by intro h; exact Bool.noConfusion h)
  | cFallback snap =>
    have hids : ((manualCleanupFallback w.store w.fs snap t.jid now ca).1).map (·.id)
        = w.store.map (·.id) :=
      idsOf_manualCleanupFallback w.store w.fs snap t.jid now ca
    by_cases hm : snap.status = Status.completed ∨ snap.status = Status.delivering
        ∨ snap.status = Status.downloaded
    · -- the fallback runs mark_file_consumed: the phase is not quiet
      have hne2 : ∀ a, DangerFree a w → t.jid ≠ a := fun a hdf =>
        dangerFree_cthread_ne hdf (mem_of_getIdx hi) (by
          rw [hph]
          show (!markyStatus snap.status) = false
          rw [markyStatus_iff.mpr hm]
          rfl)
      have hS : (manualCleanupFallback w.store w.fs snap t.jid now ca).1
          = markFileConsumed (deleteRemoteFile w.store t.jid now ca) t.jid now := by
        unfold manualCleanupFallback
        dsimp only
        rw [if_pos hm]
      refine ⟨?_, ?_, ?_, hpnd, ?_, ?_⟩
      · show (((manualCleanupFallback w.store w.fs snap t.jid now ca).1).map
          (·.id)).Nodup
        rw [hids]
        exact hnd
      · intro j hj
        have hj2 : j ∈ markFileConsumed (deleteRemoteFile w.store t.jid now ca)
            t.jid now := by
          rw [← hS]
          exact hj
        rcases markFileConsumed_cases (deleteRemoteFile w.store t.jid now ca)
            t.jid now with hC | ⟨jc, hjc, hC⟩
        · rw [hC] at hj2
          rcases deleteRemoteFile_cases w.store t.jid now ca
              with hD | ⟨jr, hjr, hridr, hD⟩
          · rw [hD] at hj2
            exact jobFInv_transfer (hjobs j hj2) fun hdf =>
              dangerFree_set_c hdf fun hja => absurd hja (hne2 j.id hdf)
          · rw [hD] at hj2
            rcases mem_setJob hj2 with rfl | hj4
            · exact jobFInv_clearRecord (hjobs jr (getJob_mem hjr)) hridr now
            · exact jobFInv_transfer (hjobs j hj4) fun hdf =>
                dangerFree_set_c hdf fun hja => absurd hja (hne2 j.id hdf)
        · rw [hC] at hj2
          rcases mem_setJob hj2 with rfl | hj3
          · exact jobFInv_consumedRecord _ jc now
          · rcases deleteRemoteFile_cases w.store t.jid now ca
                with hD | ⟨jr, hjr, hridr, hD⟩
            · rw [hD] at hj3
              exact jobFInv_transfer (hjobs j hj3) fun hdf =>
                dangerFree_set_c hdf fun hja => absurd hja (hne2 j.id hdf)
            · rw [hD] at hj3
              rcases mem_setJob hj3 with rfl | hj4
              · exact jobFInv_clearRecord (hjobs jr (getJob_mem hjr)) hridr now
              · exact jobFInv_transfer (hjobs j hj4) fun hdf =>
                  dangerFree_set_c hdf fun hja => absurd hja (hne2 j.id hdf)
      · intro k t2 hk
        obtain ⟨j2, hj2, hq2, hr2⟩ := hpc k t2 hk
        by_cases hjb : t2.jid = t.jid
        · rw [hjb] at hj2
          have hj2id : j2.id = t.jid := getJob_id hj2
          have hnq : j2.status ≠ Status.queued := by
            intro hs
            have hdf := ((hjobs j2 (getJob_mem hj2)).1 (Or.inl hs)).2.2
            exact hne2 j2.id hdf hj2id.symm
          have hndl : j2.status ≠ Status.downloading := by
            intro hs
            have hdf := ((hjobs j2 (getJob_mem hj2)).1 (Or.inr hs)).2.2
            exact hne2 j2.id hdf hj2id.symm
          have hpd : t2.phase = PPhase.pDone :=
            pcInv_pDone_of_status ⟨j2, by rw [hjb]; exact hj2, hq2, hr2⟩
              (by rw [hjb]; exact hj2) hnq hndl
          obtain ⟨j3, hj3⟩ := getJob_some_of_ids hids hj2
          refine pcInv_done hpd (j := j3) ?_
          show getJob (manualCleanupFallback w.store w.fs snap t.jid now ca).1
            t2.jid = some j3
          rw [hjb]
          exact hj3
        · refine ⟨j2, ?_, hq2, hr2⟩
          show getJob (cleanupStep w.store w.fs t.jid now ca
            (CPhase.cFallback snap)).1 t2.jid = some j2
          rw [getJob_cleanupStep_ne fun h => hjb (h.symm)]
          exact hj2
      · intro t2 ht2
        rcases hdx t2 ht2 with hq | ⟨jj, hjj⟩
        · exact Or.inl hq
        · exact Or.inr (getJob_some_of_ids hids hjj)
      · intro t2 ht2 hsn
        rcases List.mem_or_eq_of_mem_set ht2 with hold | rfl
        · obtain ⟨jj, hjj⟩ := hcx t2 hold hsn
          exact getJob_some_of_ids hids hjj
        · exact absurd hsn (by intro h; exact Bool.noConfusion h)
    · -- the fallback skips mark_file_consumed: only the remote delete runs
      have hS : (manualCleanupFallback w.store w.fs snap t.jid now ca).1
          = deleteRemoteFile w.store t.jid now ca := by
        unfold manualCleanupFallback
        dsimp only
        rw [if_neg hm]
      refine ⟨?_, ?_, ?_, hpnd, ?_, ?_⟩
      · show (((manualCleanupFallback w.store w.fs snap t.jid now ca).1).map
          (·.id)).Nodup
        rw [hids]
        exact hnd
      · intro j hj
        have hj2 : j ∈ deleteRemoteFile w.store t.jid now ca := by
          rw [← hS]
          exact hj
        rcases deleteRemoteFile_cases w.store t.jid now ca
            with hD | ⟨jr, hjr, hridr, hD⟩
        · rw [hD] at hj2
          exact jobFInv_transfer (hjobs j hj2) fun hdf =>
            dangerFree_set_c hdf fun hja => rfl
        · rw [hD] at hj2
          rcases mem_setJob hj2 with rfl | hj4
          · exact jobFInv_clearRecord (hjobs jr (getJob_mem hjr)) hridr now
          · exact jobFInv_transfer (hjobs j hj4) fun hdf =>
              dangerFree_set_c hdf fun hja => rfl
      · intro k t2 hk
        obtain ⟨j2, hj2, hq2, hr2⟩ := hpc k t2 hk
        by_cases hjb : t2.jid = t.jid
        · rw [hjb] at hj2
          rcases deleteRemoteFile_cases w.store t.jid now ca
              with hD | ⟨jr, hjr, hridr, hD⟩
          · refine ⟨j2, ?_, hq2, hr2⟩
            show getJob (manualCleanupFallback w.store w.fs snap t.jid now ca).1
              t2.jid = some j2
            rw [hS, hD, hjb]
            exact hj2
          · have hjeq : j2 = jr := Option.some.inj (hj2.symm.trans hjr)
            have hjrid : jr.id = t.jid := getJob_id hjr
            have hnq : jr.status ≠ Status.queued := fun hs =>
              hridr ((hjobs jr (getJob_mem hjr)).1 (Or.inl hs)).2.1
            have hndl : jr.status ≠ Status.downloading := fun hs =>
              hridr ((hjobs jr (getJob_mem hjr)).1 (Or.inr hs)).2.1
            have hpd : t2.phase = PPhase.pDone := by
              refine pcInv_pDone_of_status ⟨j2, by rw [hjb]; exact hj2, hq2, hr2⟩
                (by rw [hjb]; exact hj2) ?_ ?_
              · rw [hjeq]
                exact hnq
              · rw [hjeq]
                exact hndl
            have hpres : getJob (manualCleanupFallback w.store w.fs snap t.jid
                now ca).1 t2.jid
                = some { jr with
                    remote_file_id := none
                    remote_file_url := none
                    remote_file_view_url := none
                    updated_at := now } := by
              rw [hS, hD, hjb]
              exact getJob_setJob_self hjr hjrid
            exact pcInv_done hpd hpres
        · refine ⟨j2, ?_, hq2, hr2⟩
          show getJob (cleanupStep w.store w.fs t.jid now ca
            (CPhase.cFallback snap)).1 t2.jid = some j2
          rw [getJob_cleanupStep_ne fun h => hjb (h.symm)]
          exact hj2
      · intro t2 ht2
        rcases hdx t2 ht2 with hq | ⟨jj, hjj⟩
        · exact Or.inl hq
        · exact Or.inr (getJob_some_of_ids hids hjj)
      · intro t2 ht2 hsn
        rcases List.mem_or_eq_of_mem_set ht2 with hold | rfl
        · obtain ⟨jj, hjj⟩ := hcx t2 hold hsn
          exact getJob_some_of_ids hids hjj
        · exact absurd hsn (by intro h; exact Bool.noConfusion h)
  | cDone o =>
    refine ⟨hnd, ?_, ?_, hpnd, hdx, ?_⟩
    · intro j hj
      exact jobFInv_transfer (hjobs j hj) fun hdf =>
        dangerFree_set_c hdf fun hja => rfl
    · intro k t2 hk
      exact pcInv_mono (hpc k t2 hk) rfl
    · intro t2 ht2 hsn
      rcases List.mem_or_eq_of_mem_set ht2 with hold | rfl
      · exact hcx t2 hold hsn
      · exact absurd hsn (by intro h; exact Bool.noConfusion h)

theorem FInv_dstep {w : FSys} {i : Nat} {t : DThread} (hinv : FInv w)
    (now : Nat) (ca : Bool) (hi : w.dthreads[i]? = some t) :
    FInv { w with
      store := (reqStep t.jid now ca w.store w.fs t.req).1
      fs := (reqStep t.jid now ca w.store w.fs t.req).2.1
      dthreads := w.dthreads.set i
        ⟨t.jid, (reqStep t.jid now ca w.store w.fs t.req).2.2⟩ } := by
  obtain ⟨hnd, hjobs, hpc, hpnd, hdx, hcx⟩ := hinv
  cases hph : t.req.phase with
  | pending =>
    cases hg : downloadFileGate w.store w.fs t.jid t.req.autoDelete with
    | error e =>
      have hR : reqStep t.jid now ca w.store w.fs t.req
          = (w.store, w.fs,
            { t.req with
                phase := ReqPhase.done (ReqOutcome.rejected e)
                observed := (getJob w.store t.jid).map (·.status) }) := by
        unfold reqStep
        rw [hph]
        dsimp only
        rw [hg]
      rw [hR]
      refine ⟨hnd, ?_, ?_, hpnd, ?_, hcx⟩
      · intro j hj
        exact jobFInv_transfer (hjobs j hj) fun hdf =>
          dangerFree_set_d hdf fun hja => rfl
      · intro k t2 hk
        exact pcInv_mono (hpc k t2 hk) rfl
      · intro t2 ht2
        rcases List.mem_or_eq_of_mem_set ht2 with hold | rfl
        · exact hdx t2 hold
        · exact Or.inl rfl
    | ok jf =>
      obtain ⟨jg, fg⟩ := jf
      have hge := gate_ok_elim hg
      have hR : reqStep t.jid now ca w.store w.fs t.req
          = (w.store, w.fs,
            { t.req with
                phase := ReqPhase.passed fg
                observed := some jg.status }) := by
        unfold reqStep
        rw [hph]
        dsimp only
        rw [hg]
      rw [hR]
      have hne2 : ∀ (j : Job), j ∈ w.store →
          (j.status = Status.queued ∨ j.status = Status.downloading
            ∨ j.status = Status.failed) → t.jid ≠ j.id := by
        intro j hj hst hja
        have hgj : getJob w.store j.id = some j := getJob_of_mem_nodup hnd hj
        rw [← hja] at hgj
        have hjeq : jg = j := Option.some.inj ((hge.1).symm.trans hgj)
        have hall := hge.2.2.2.1
        rw [hjeq] at hall
        rcases statusAllowed_elim hall with hc | hc <;>
          rcases hst with h | h | h <;> rw [h] at hc <;> exact Status.noConfusion hc
      refine ⟨hnd, ?_, ?_, hpnd, ?_, hcx⟩
      · intro j hj
        have hji := hjobs j hj
        refine ⟨fun hs => ?_, fun hs => ?_, hji.2.2⟩
        · obtain ⟨ho, hr2, hdf⟩ := hji.1 hs
          refine ⟨ho, hr2, dangerFree_set_d hdf fun hja => ?_⟩
          exact absurd hja (hne2 j hj (by
            rcases hs with h | h
            exacts [Or.inl h, Or.inr (Or.inl h)]))
        · obtain ⟨ho, hr2, hdf⟩ := hji.2.1 hs
          exact ⟨ho, hr2, dangerFree_set_d hdf fun hja =>
            absurd hja (hne2 j hj (Or.inr (Or.inr hs)))⟩
      · intro k t2 hk
        exact pcInv_mono (hpc k t2 hk) rfl
      · intro t2 ht2
        rcases List.mem_or_eq_of_mem_set ht2 with hold | rfl
        · exact hdx t2 hold
        · exact Or.inr ⟨jg, hge.1⟩
  | passed f =>
    have hne2 : ∀ a, DangerFree a w → t.jid ≠ a := fun a hdf =>
      dangerFree_dthread_ne hdf (mem_of_getIdx hi) (by rw [hph]; rfl)
    have hex : ∃ jj, getJob w.store t.jid = some jj := by
      rcases hdx t (mem_of_getIdx hi) with hq | hex2
      · rw [hph] at hq
        exact absurd hq (by intro h; exact Bool.noConfusion h)
      · exact hex2
    obtain ⟨jj, hjj⟩ := hex
    have hjjid : jj.id = t.jid := getJob_id hjj
    have hR : reqStep t.jid now ca w.store w.fs t.req
        = (markDelivering w.store t.jid now, w.fs,
          { t.req with phase := ReqPhase.marked f }) := by
      unfold reqStep
      rw [hph]
    rw [hR]
    have hM : markDelivering w.store t.jid now
        = setJob w.store
            { jj with status := Status.delivering, updated_at := now } := by
      unfold markDelivering
      rw [hjj]
    refine ⟨?_, ?_, ?_, hpnd, ?_, ?_⟩
    · show ((markDelivering w.store t.jid now).map (·.id)).Nodup
      rw [idsOf_markDelivering]
      exact hnd
    · intro j hj
      have hj2 : j ∈ setJob w.store
          { jj with status := Status.delivering, updated_at := now } := by
        rw [← hM]
        exact hj
      rcases mem_setJob hj2 with rfl | hj3
      · exact jobFInv_deliveringRecord _ jj now
      · exact jobFInv_transfer (hjobs j hj3) fun hdf =>
          dangerFree_set_d hdf fun hja => absurd hja (hne2 j.id hdf)
    · intro k t2 hk
      obtain ⟨j2, hj2, hq2, hr2⟩ := hpc k t2 hk
      by_cases hjb : t2.jid = t.jid
      · rw [hjb] at hj2
        have hj2id : j2.id = t.jid := getJob_id hj2
        have hnq : j2.status ≠ Status.queued := by
          intro hs
          have hdf := ((hjobs j2 (getJob_mem hj2)).1 (Or.inl hs)).2.2
          exact hne2 j2.id hdf hj2id.symm
        have hndl : j2.status ≠ Status.downloading := by
          intro hs
          have hdf := ((hjobs j2 (getJob_mem hj2)).1 (Or.inr hs)).2.2
          exact hne2 j2.id hdf hj2id.symm
        have hpd : t2.phase = PPhase.pDone :=
          pcInv_pDone_of_status ⟨j2, by rw [hjb]; exact hj2, hq2, hr2⟩
            (by rw [hjb]; exact hj2) hnq hndl
        have hpres : getJob (markDelivering w.store t.jid now) t2.jid
            = some { jj with status := Status.delivering, updated_at := now } := by
          rw [hM, hjb]
          exact getJob_setJob_self hjj hjjid
        exact pcInv_done hpd hpres
      · refine ⟨j2, ?_, hq2, hr2⟩
        show getJob (markDelivering w.store t.jid now) t2.jid = some j2
        rw [getJob_markDelivering_ne fun h => hjb (h.symm)]
        exact hj2
    · intro t2 ht2
      rcases List.mem_or_eq_of_mem_set ht2 with hold | rfl
      · rcases hdx t2 hold with hq | ⟨j3, hj3⟩
        · exact Or.inl hq
        · exact Or.inr (getJob_some_of_ids (idsOf_markDelivering _ _ _) hj3)
      · exact Or.inr (getJob_some_of_ids (idsOf_markDelivering _ _ _) hjj)
    · intro t2 ht2 hsn
      obtain ⟨j3, hj3⟩ := hcx t2 ht2 hsn
      exact getJob_some_of_ids (idsOf_markDelivering _ _ _) hj3
  | marked f =>
    have hne2 : ∀ a, DangerFree a w → t.jid ≠ a := fun a hdf =>
      dangerFree_dthread_ne hdf (mem_of_getIdx hi) (by rw [hph]; rfl)
    have hex : ∃ jj, getJob w.store t.jid = some jj := by
      rcases hdx t (mem_of_getIdx hi) with hq | hex2
      · rw [hph] at hq
        exact absurd hq (by intro h; exact Bool.noConfusion h)
      · exact hex2
    by_cases hmem : f ∈ w.fs
    · have hR : reqStep t.jid now ca w.store w.fs t.req
          = (w.store, w.fs,
            { t.req with phase := ReqPhase.served f, servedBytes := true }) := by
        unfold reqStep
        rw [hph]
        dsimp only
        rw [if_pos hmem]
      rw [hR]
      refine ⟨hnd, ?_, ?_, hpnd, ?_, hcx⟩
      · intro j hj
        exact jobFInv_transfer (hjobs j hj) fun hdf =>
          dangerFree_set_d hdf fun hja => absurd hja (hne2 j.id hdf)
      · intro k t2 hk
        exact pcInv_mono (hpc k t2 hk) rfl
      · intro t2 ht2
        rcases List.mem_or_eq_of_mem_set ht2 with hold | rfl
        · exact hdx t2 hold
        · exact Or.inr hex
    · have hR : reqStep t.jid now ca w.store w.fs t.req
          = (w.store, w.fs,
            { t.req with phase := ReqPhase.done ReqOutcome.ioError }) := by
        unfold reqStep
        rw [hph]
        dsimp only
        rw [if_neg hmem]
      rw [hR]
      refine ⟨hnd, ?_, ?_, hpnd, ?_, hcx⟩
      · intro j hj
        exact jobFInv_transfer (hjobs j hj) fun hdf =>
          dangerFree_set_d hdf fun hja => rfl
      · intro k t2 hk
        exact pcInv_mono (hpc k t2 hk) rfl
      · intro t2 ht2
        rcases List.mem_or_eq_of_mem_set ht2 with hold | rfl
        · exact hdx t2 hold
        · exact Or.inl rfl
  | served f =>
    have hne2 : ∀ a, DangerFree a w → t.jid ≠ a := fun a hdf =>
      dangerFree_dthread_ne hdf (mem_of_getIdx hi) (by rw [hph]; rfl)
    have hex : ∃ jj, getJob w.store t.jid = some jj := by
      rcases hdx t (mem_of_getIdx hi) with hq | hex2
      · rw [hph] at hq
        exact absurd hq (by intro h; exact Bool.noConfusion h)
      · exact hex2
    obtain ⟨jj, hjj⟩ := hex
    have hjjid : jj.id = t.jid := getJob_id hjj
    by_cases had : t.req.autoDelete = true
    · have hR : reqStep t.jid now ca w.store w.fs t.req
          = ((cleanupAfterDelivery w.fs w.store t.jid f now ca).2,
            (cleanupAfterDelivery w.fs w.store t.jid f now ca).1,
            { t.req with phase := ReqPhase.done ReqOutcome.success }) := by
        unfold reqStep
        rw [hph]
        dsimp only
        rw [if_pos had]
      rw [hR]
      have hids := idsOf_cleanupAfterDelivery w.fs w.store t.jid f now ca
      refine ⟨?_, ?_, ?_, hpnd, ?_, ?_⟩
      · show (((cleanupAfterDelivery w.fs w.store t.jid f now ca).2).map
          (·.id)).Nodup
        rw [hids]
        exact hnd
      · intro j hj
        have hj2 : j ∈ markFileConsumed (deleteRemoteFile w.store t.jid now ca)
            t.jid now := hj
        rcases markFileConsumed_cases (deleteRemoteFile w.store t.jid now ca)
            t.jid now with hC | ⟨jc, hjc, hC⟩
        · rw [hC] at hj2
          rcases deleteRemoteFile_cases w.store t.jid now ca
              with hD | ⟨jr, hjr, hridr, hD⟩
          · rw [hD] at hj2
            exact jobFInv_transfer (hjobs j hj2) fun hdf =>
              dangerFree_set_d hdf fun hja => rfl
          · rw [hD] at hj2
            rcases mem_setJob hj2 with rfl | hj4
            · exact jobFInv_clearRecord (hjobs jr (getJob_mem hjr)) hridr now
            · exact jobFInv_transfer (hjobs j hj4) fun hdf =>
                dangerFree_set_d hdf fun hja => rfl
        · rw [hC] at hj2
          rcases mem_setJob hj2 with rfl | hj3
          · exact jobFInv_consumedRecord _ jc now
          · rcases deleteRemoteFile_cases w.store t.jid now ca
                with hD | ⟨jr, hjr, hridr, hD⟩
            · rw [hD] at hj3
              exact jobFInv_transfer (hjobs j hj3) fun hdf =>
                dangerFree_set_d hdf fun hja => rfl
            · rw [hD] at hj3
              rcases mem_setJob hj3 with rfl | hj4
              · exact jobFInv_clearRecord (hjobs jr (getJob_mem hjr)) hridr now
              · exact jobFInv_transfer (hjobs j hj4) fun hdf =>
                  dangerFree_set_d hdf fun hja => rfl
      · intro k t2 hk
        obtain ⟨j2, hj2, hq2, hr2⟩ := hpc k t2 hk
        by_cases hjb : t2.jid = t.jid
        · rw [hjb] at hj2
          have hj2id : j2.id = t.jid := getJob_id hj2
          have hnq : j2.status ≠ Status.queued := by
            intro hs
            have hdf := ((hjobs j2 (getJob_mem hj2)).1 (Or.inl hs)).2.2
            exact hne2 j2.id hdf hj2id.symm
          have hndl : j2.status ≠ Status.downloading := by
            intro hs
            have hdf := ((hjobs j2 (getJob_mem hj2)).1 (Or.inr hs)).2.2
            exact hne2 j2.id hdf hj2id.symm
          have hpd : t2.phase = PPhase.pDone :=
            pcInv_pDone_of_status ⟨j2, by rw [hjb]; exact hj2, hq2, hr2⟩
              (by rw [hjb]; exact hj2) hnq hndl
          obtain ⟨j3, hj3⟩ := getJob_some_of_ids hids hj2
          refine pcInv_done hpd (j := j3) ?_
          show getJob (cleanupAfterDelivery w.fs w.store t.jid f now ca).2
            t2.jid = some j3
          rw [hjb]
          exact hj3
        · refine ⟨j2, ?_, hq2, hr2⟩
          show getJob (cleanupAfterDelivery w.fs w.store t.jid f now ca).2
            t2.jid = some j2
          rw [getJob_cleanupAfterDelivery_ne fun h => hjb (h.symm)]
          exact hj2
      · intro t2 ht2
        rcases List.mem_or_eq_of_mem_set ht2 with hold | rfl
        · rcases hdx t2 hold with hq | ⟨j3, hj3⟩
          · exact Or.inl hq
          · exact Or.inr (getJob_some_of_ids hids hj3)
        · exact Or.inl rfl
      · intro t2 ht2 hsn
        obtain ⟨j3, hj3⟩ := hcx t2 ht2 hsn
        exact getJob_some_of_ids hids hj3
    · have hR : reqStep t.jid now ca w.store w.fs t.req
          = (markDownloaded w.store t.jid now, w.fs,
            { t.req with phase := ReqPhase.done ReqOutcome.success }) := by
        unfold reqStep
        rw [hph]
        dsimp only
        rw [if_neg had]
      rw [hR]
      have hM : markDownloaded w.store t.jid now
          = setJob w.store
              { jj with status := Status.downloaded, updated_at := now } := by
        unfold markDownloaded
        rw [hjj]
      refine ⟨?_, ?_, ?_, hpnd, ?_, ?_⟩
      · show ((markDownloaded w.store t.jid now).map (·.id)).Nodup
        rw [idsOf_markDownloaded]
        exact hnd
      · intro j hj
        have hj2 : j ∈ setJob w.store
            { jj with status := Status.downloaded, updated_at := now } := by
          rw [← hM]
          exact hj
        rcases mem_setJob hj2 with rfl | hj3
        · exact jobFInv_downloadedRecord _ jj now
        · exact jobFInv_transfer (hjobs j hj3) fun hdf =>
            dangerFree_set_d hdf fun hja => rfl
      · intro k t2 hk
        obtain ⟨j2, hj2, hq2, hr2⟩ := hpc k t2 hk
        by_cases hjb : t2.jid = t.jid
        · rw [hjb] at hj2
          have hj2id : j2.id = t.jid := getJob_id hj2
          have hnq : j2.status ≠ Status.queued := by
            intro hs
            have hdf := ((hjobs j2 (getJob_mem hj2)).1 (Or.inl hs)).2.2
            exact hne2 j2.id hdf hj2id.symm
          have hndl : j2.status ≠ Status.downloading := by
            intro hs
            have hdf := ((hjobs j2 (getJob_mem hj2)).1 (Or.inr hs)).2.2
            exact hne2 j2.id hdf hj2id.symm
          have hpd : t2.phase = PPhase.pDone :=
            pcInv_pDone_of_status ⟨j2, by rw [hjb]; exact hj2, hq2, hr2⟩
              (by rw [hjb]; exact hj2) hnq hndl
          have hpres : getJob (markDownloaded w.store t.jid now) t2.jid
              = some { jj with status := Status.downloaded, updated_at := now } := by
            rw [hM, hjb]
            exact getJob_setJob_self hjj hjjid
          exact pcInv_done hpd hpres
        · refine ⟨j2, ?_, hq2, hr2⟩
          show getJob (markDownloaded w.store t.jid now) t2.jid = some j2
          rw [getJob_markDownloaded_ne fun h => hjb (h.symm)]
          exact hj2
      · intro t2 ht2
        rcases List.mem_or_eq_of_mem_set ht2 with hold | rfl
        · rcases hdx t2 hold with hq | ⟨j3, hj3⟩
          · exact Or.inl hq
          · exact Or.inr (getJob_some_of_ids (idsOf_markDownloaded _ _ _) hj3)
        · exact Or.inl rfl
      · intro t2 ht2 hsn
        obtain ⟨j3, hj3⟩ := hcx t2 ht2 hsn
        exact getJob_some_of_ids (idsOf_markDownloaded _ _ _) hj3
  | done o =>
    have hR : reqStep t.jid now ca w.store w.fs t.req
        = (w.store, w.fs, t.req) := by
      unfold reqStep
      rw [hph]
    rw [hR]
    refine ⟨hnd, ?_, ?_, hpnd, ?_, hcx⟩
    · intro j hj
      exact jobFInv_transfer (hjobs j hj) fun hdf =>
        dangerFree_set_d hdf fun hja => hdf.1 t (mem_of_getIdx hi) hja
    · intro k t2 hk
      exact pcInv_mono (hpc k t2 hk) rfl
    · intro t2 ht2
      rcases List.mem_or_eq_of_mem_set ht2 with hold | rfl
      · exact hdx t2 hold
      · exact hdx t (mem_of_getIdx hi)

theorem FInv_step {w w' : FSys} (hinv : FInv w) (hstep : FStep w w') :
    FInv w' := by
  cases hstep with
  | spawnDelivery jid ad => exact FInv_spawnDelivery hinv jid ad
  | spawnCleanup jid => exact FInv_spawnCleanup hinv jid
  | create jid url outp fmt ffm now hfresh =>
    exact FInv_create hinv jid url outp fmt ffm now hfresh
  | dstep i t now ca hi => exact FInv_dstep hinv now ca hi
  | cstep i t now ca hi => exact FInv_cstep hinv now ca hi
  | pstep i t now ext relay hi => exact FInv_pstep hinv now ext relay hi
  | fschange fs2 => exact FInv_fschange hinv fs2

theorem FInv_empty : FInv ⟨[], [], [], [], []⟩ := by
  refine ⟨List.nodup_nil, ?_, ?_, List.nodup_nil, ?_, ?_⟩
  · intro j hj
    cases hj
  · intro k t hk
    simp at hk
  · intro t ht
    cases ht
  · intro t ht hsn
    cases ht

theorem FInv_rtc {w w' : FSys} (hinv : FInv w)
    (h : Relation.ReflTransGen FStep w w') : FInv w' := by
  induction h with
  | refl => exact hinv
  | tail hsteps hstep ih => exact FInv_step ih hstep

theorem FInv_reachable {w : FSys} (h : FReachable w) : FInv w :=
  FInv_rtc FInv_empty h

/-! ## One step preserves a terminal, quiescent job snapshot -/

theorem step_preserves_terminal {w w' : FSys} {a : String} {j : Job}
    (hinv : FInv w) (hstep : FStep w w') (hj : getJob w.store a = some j)
    (hterm : j.status = Status.failed ∨ j.status = Status.delivered)
    (hrn : j.remote_file_id = none) (hdf : DangerFree a w) :
    getJob w'.store a = some j ∧ DangerFree a w' := by
  obtain ⟨hnd, hjobs, hpc, hpnd, hdx, hcx⟩ := hinv
  have hnq : j.status ≠ Status.queued := by
    rcases hterm with h | h <;> rw [h] <;> intro h2 <;> exact Status.noConfusion h2
  have hndl : j.status ≠ Status.downloading := by
    rcases hterm with h | h <;> rw [h] <;> intro h2 <;> exact Status.noConfusion h2
  have hof : j.output_file = none := by
    rcases hterm with h | h
    · exact ((hjobs j (getJob_mem hj)).2.1 h).1
    · exact ((hjobs j (getJob_mem hj)).2.2 h).1
  cases hstep with
  | spawnDelivery jid ad =>
    exact ⟨hj, dangerFree_append_d hdf fun _ => rfl⟩
  | spawnCleanup jid =>
    exact ⟨hj, dangerFree_append_c hdf fun _ => rfl⟩
  | create jid url outp fmt ffm now hfresh =>
    exact ⟨getJob_append hj, hdf⟩
  | fschange fs2 => exact ⟨hj, hdf⟩
  | dstep i t now ca hi =>
    by_cases hjb : t.jid = a
    · have hq : dquiet t.req.phase = true := hdf.1 t (mem_of_getIdx hi) hjb
      cases hph : t.req.phase with
      | pending =>
        obtain ⟨e, hg⟩ := @gate_error_of_terminal w.store w.fs t.jid
          t.req.autoDelete j (by rw [hjb]; exact hj) hterm
        have hR : reqStep t.jid now ca w.store w.fs t.req
            = (w.store, w.fs,
              { t.req with
                  phase := ReqPhase.done (ReqOutcome.rejected e)
                  observed := (getJob w.store t.jid).map (·.status) }) := by
          unfold reqStep
          rw [hph]
          dsimp only
          rw [hg]
        rw [hR]
        exact ⟨hj, dangerFree_set_d hdf fun _ => rfl⟩
      | done o =>
        have hR : reqStep t.jid now ca w.store w.fs t.req
            = (w.store, w.fs, t.req) := by
          unfold reqStep
          rw [hph]
        rw [hR]
        exact ⟨hj, dangerFree_set_d hdf fun hja2 =>
          hdf.1 t (mem_of_getIdx hi) hja2⟩
      | passed f =>
        rw [hph] at hq
        exact absurd hq (by intro h2; exact Bool.noConfusion h2)
      | marked f =>
        rw [hph] at hq
        exact absurd hq (by intro h2; exact Bool.noConfusion h2)
      | served f =>
        rw [hph] at hq
        exact absurd hq (by intro h2; exact Bool.noConfusion h2)
    · constructor
      · show getJob (reqStep t.jid now ca w.store w.fs t.req).1 a = some j
        rw [getJob_reqStep_ne hjb]
        exact hj
      · exact dangerFree_set_d hdf fun hja => absurd hja hjb
  | cstep i t now ca hi =>
    by_cases hjb : t.jid = a
    · have hq : cquiet t.phase = true := hdf.2 t (mem_of_getIdx hi) hjb
      cases hph : t.phase with
      | cInit =>
        constructor
        · exact hj
        · refine dangerFree_set_c hdf fun hja2 => ?_
          show cquiet (cleanupCheckStep w.store w.fs t.jid) = true
          rw [hjb]
          unfold cleanupCheckStep
          rw [hj]
          dsimp only
          rw [hof]
          show (!markyStatus j.status) = true
          rcases hterm with h | h <;> rw [h] <;> rfl
      | cDone o2 =>
        exact ⟨hj, dangerFree_set_c hdf fun _ => rfl⟩
      | cDispose f =>
        rw [hph] at hq
        exact absurd hq (by intro h2; exact Bool.noConfusion h2)
      | cFallback snap =>
        have hmk : markyStatus snap.status = false := by
          rw [hph] at hq
          cases hmk2 : markyStatus snap.status with
          | false => rfl
          | true =>
            rw [show cquiet (CPhase.cFallback snap) = !markyStatus snap.status
              from rfl, hmk2] at hq
            exact absurd hq (by intro h2; exact Bool.noConfusion h2)
        have hm2 : ¬(snap.status = Status.completed
            ∨ snap.status = Status.delivering
            ∨ snap.status = Status.downloaded) := by
          intro hm3
          rw [markyStatus_iff.mpr hm3] at hmk
          exact Bool.noConfusion hmk
        have hS : (cleanupStep w.store w.fs t.jid now ca
            (CPhase.cFallback snap)).1 = w.store := by
          show (manualCleanupFallback w.store w.fs snap t.jid now ca).1 = w.store
          unfold manualCleanupFallback
          dsimp only
          rw [if_neg hm2]
          exact deleteRemoteFile_eq_self (by rw [hjb]; exact hj) hrn
        constructor
        · show getJob (cleanupStep w.store w.fs t.jid now ca
            (CPhase.cFallback snap)).1 a = some j
          rw [hS]
          exact hj
        · exact dangerFree_set_c hdf fun _ => rfl
    · constructor
      · show getJob (cleanupStep w.store w.fs t.jid now ca t.phase).1 a = some j
        rw [getJob_cleanupStep_ne hjb]
        exact hj
      · exact dangerFree_set_c hdf fun hja => absurd hja hjb
  | pstep i t now ext relay hi =>
    by_cases hjb : t.jid = a
    · have hpdt : t.phase = PPhase.pDone :=
        pcInv_pDone_of_status (hpc i t hi) (by rw [hjb]; exact hj) hnq hndl
      constructor
      · show getJob (processStep w.store w.fs t.jid now ext relay t.phase).1 a
          = some j
        rw [hpdt]
        exact hj
      · exact hdf
    · constructor
      · show getJob (processStep w.store w.fs t.jid now ext relay t.phase).1 a
          = some j
        rw [getJob_processStep_ne hjb]
        exact hj
      · exact hdf

theorem rtc_preserves_terminal {w w' : FSys} {a : String} {j : Job}
    (hinv : FInv w) (hsteps : Relation.ReflTransGen FStep w w')
    (hj : getJob w.store a = some j)
    (hterm : j.status = Status.failed ∨ j.status = Status.delivered)
    (hrn : j.remote_file_id = none) (hdf : DangerFree a w) :
    getJob w'.store a = some j ∧ DangerFree a w' := by
  induction hsteps with
  | refl => exact ⟨hj, hdf⟩
  | tail hsteps2 hstep ih =>
    obtain ⟨hj2, hdf2⟩ := ih
    exact step_preserves_terminal (FInv_rtc hinv hsteps2) hstep hj2 hterm hrn hdf2

/-! ## One step preserves null artifact fields once all executions end -/

theorem step_preserves_fiveNull {w w' : FSys} {a : String} {j : Job}
    (hinv : FInv w) (hstep : FStep w w') (hj : getJob w.store a = some j)
    (h5 : fiveNull j) (hpd : pAllDone a w) :
    ∃ j2, getJob w'.store a = some j2 ∧ fiveNull j2 ∧ pAllDone a w' := by
  obtain ⟨hnd, hjobs, hpc, hpnd, hdx, hcx⟩ := hinv
  cases hstep with
  | spawnDelivery jid ad => exact ⟨j, hj, h5, hpd⟩
  | spawnCleanup jid => exact ⟨j, hj, h5, hpd⟩
  | fschange fs2 => exact ⟨j, hj, h5, hpd⟩
  | create jid url outp fmt ffm now hfresh =>
    refine ⟨j, getJob_append hj, h5, ?_⟩
    intro t2 ht2 hja
    rcases List.mem_append.mp ht2 with hold | hsing
    · exact hpd t2 hold hja
    · obtain rfl := List.mem_singleton.mp hsing
      have hnone : getJob w.store a = none := by
        rw [← hja]
        exact hfresh
      rw [hj] at hnone
      exact Option.noConfusion hnone
  | pstep i t now ext relay hi =>
    by_cases hjb : t.jid = a
    · have hpdt : t.phase = PPhase.pDone := hpd t (mem_of_getIdx hi) hjb
      refine ⟨j, ?_, h5, ?_⟩
      · show getJob (processStep w.store w.fs t.jid now ext relay t.phase).1 a
          = some j
        rw [hpdt]
        exact hj
      · intro t2 ht2 hja
        rcases List.mem_or_eq_of_mem_set ht2 with hold | rfl
        · exact hpd t2 hold hja
        · show (processStep w.store w.fs t.jid now ext relay t.phase).2.2
            = PPhase.pDone
          rw [hpdt]
          rfl
    · refine ⟨j, ?_, h5, ?_⟩
      · show getJob (processStep w.store w.fs t.jid now ext relay t.phase).1 a
          = some j
        rw [getJob_processStep_ne hjb]
        exact hj
      · intro t2 ht2 hja
        rcases List.mem_or_eq_of_mem_set ht2 with hold | rfl
        · exact hpd t2 hold hja
        · exact absurd hja hjb
  | dstep i t now ca hi =>
    by_cases hjb : t.jid = a
    · subst hjb
      cases hph : t.req.phase with
      | pending =>
        have hs1 : (reqStep t.jid now ca w.store w.fs t.req).1 = w.store := by
          unfold reqStep
          rw [hph]
          dsimp only
          cases hg : downloadFileGate w.store w.fs t.jid t.req.autoDelete with
          | error e => rfl
          | ok jf => rfl
        refine ⟨j, ?_, h5, hpd⟩
        show getJob (reqStep t.jid now ca w.store w.fs t.req).1 t.jid = some j
        rw [hs1]
        exact hj
      | passed f =>
        have hs1 : (reqStep t.jid now ca w.store w.fs t.req).1
            = markDelivering w.store t.jid now := by
          unfold reqStep
          rw [hph]
        have hM : markDelivering w.store t.jid now
            = setJob w.store
                { j with status := Status.delivering, updated_at := now } := by
          unfold markDelivering
          rw [hj]
        refine ⟨{ j with status := Status.delivering, updated_at := now },
          ?_, fiveNull_statusOnly h5 Status.delivering now, hpd⟩
        show getJob (reqStep t.jid now ca w.store w.fs t.req).1 t.jid = some _
        rw [hs1, hM]
        exact getJob_setJob_self2 hj (getJob_id hj) rfl
      | marked f =>
        have hs1 : (reqStep t.jid now ca w.store w.fs t.req).1 = w.store := by
          unfold reqStep
          rw [hph]
          dsimp only
          by_cases hmem : f ∈ w.fs
          · rw [if_pos hmem]
          · rw [if_neg hmem]
        refine ⟨j, ?_, h5, hpd⟩
        show getJob (reqStep t.jid now ca w.store w.fs t.req).1 t.jid = some j
        rw [hs1]
        exact hj
      | served f =>
        by_cases had : t.req.autoDelete = true
        · have hs1 : (reqStep t.jid now ca w.store w.fs t.req).1
              = (cleanupAfterDelivery w.fs w.store t.jid f now ca).2 := by
            unfold reqStep
            rw [hph]
            dsimp only
            rw [if_pos had]
          have hS1 : deleteRemoteFile w.store t.jid now ca = w.store :=
            deleteRemoteFile_eq_self hj h5.2.2.1
          have hC : (cleanupAfterDelivery w.fs w.store t.jid f now ca).2
              = setJob w.store
                  { j with
                    status := Status.delivered
                    output_file := none
                    download_url := none
                    remote_file_id := none
                    remote_file_url := none
                    remote_file_view_url := none
                    updated_at := now } := by
            show markFileConsumed (deleteRemoteFile w.store t.jid now ca)
              t.jid now = _
            rw [hS1]
            unfold markFileConsumed
            rw [hj]
          refine ⟨_, ?_, fiveNull_consumedRecord j now, hpd⟩
          show getJob (reqStep t.jid now ca w.store w.fs t.req).1 t.jid = some _
          rw [hs1, hC]
          exact getJob_setJob_self2 hj (getJob_id hj) rfl
        · have hs1 : (reqStep t.jid now ca w.store w.fs t.req).1
              = markDownloaded w.store t.jid now := by
            unfold reqStep
            rw [hph]
            dsimp only
            rw [if_neg had]
          have hM : markDownloaded w.store t.jid now
              = setJob w.store
                  { j with status := Status.downloaded, updated_at := now } := by
            unfold markDownloaded
            rw [hj]
          refine ⟨{ j with status := Status.downloaded, updated_at := now },
            ?_, fiveNull_statusOnly h5 Status.downloaded now, hpd⟩
          show getJob (reqStep t.jid now ca w.store w.fs t.req).1 t.jid = some _
          rw [hs1, hM]
          exact getJob_setJob_self2 hj (getJob_id hj) rfl
      | done o =>
        have hs1 : (reqStep t.jid now ca w.store w.fs t.req).1 = w.store := by
          unfold reqStep
          rw [hph]
        refine ⟨j, ?_, h5, hpd⟩
        show getJob (reqStep t.jid now ca w.store w.fs t.req).1 t.jid = some j
        rw [hs1]
        exact hj
    · refine ⟨j, ?_, h5, hpd⟩
      show getJob (reqStep t.jid now ca w.store w.fs t.req).1 a = some j
      rw [getJob_reqStep_ne hjb]
      exact hj
  | cstep i t now ca hi =>
    by_cases hjb : t.jid = a
    · subst hjb
      cases hph : t.phase with
      | cInit => exact ⟨j, hj, h5, hpd⟩
      | cDone o => exact ⟨j, hj, h5, hpd⟩
      | cDispose f =>
        have hS1 : deleteRemoteFile w.store t.jid now ca = w.store :=
          deleteRemoteFile_eq_self hj h5.2.2.1
        have hC : (cleanupStep w.store w.fs t.jid now ca (CPhase.cDispose f)).1
            = setJob w.store
                { j with
                  status := Status.delivered
                  output_file := none
                  download_url := none
                  remote_file_id := none
                  remote_file_url := none
                  remote_file_view_url := none
                  updated_at := now } := by
          show markFileConsumed (deleteRemoteFile w.store t.jid now ca)
            t.jid now = _
          rw [hS1]
          unfold markFileConsumed
          rw [hj]
        refine ⟨_, ?_, fiveNull_consumedRecord j now, hpd⟩
        show getJob (cleanupStep w.store w.fs t.jid now ca
          (CPhase.cDispose f)).1 t.jid = some _
        rw [hC]
        exact getJob_setJob_self2 hj (getJob_id hj) rfl
      | cFallback snap =>
        have hS1 : deleteRemoteFile w.store t.jid now ca = w.store :=
          deleteRemoteFile_eq_self hj h5.2.2.1
        by_cases hm : snap.status = Status.completed
            ∨ snap.status = Status.delivering
            ∨ snap.status = Status.downloaded
        · have hC : (cleanupStep w.store w.fs t.jid now ca
              (CPhase.cFallback snap)).1
              = setJob w.store
                  { j with
                    status := Status.delivered
                    output_file := none
                    download_url := none
                    remote_file_id := none
                    remote_file_url := none
                    remote_file_view_url := none
                    updated_at := now } := by
            show (manualCleanupFallback w.store w.fs snap t.jid now ca).1 = _
            unfold manualCleanupFallback
            dsimp only
            rw [if_pos hm, hS1]
            unfold markFileConsumed
            rw [hj]
          refine ⟨_, ?_, fiveNull_consumedRecord j now, hpd⟩
          show getJob (cleanupStep w.store w.fs t.jid now ca
            (CPhase.cFallback snap)).1 t.jid = some _
          rw [hC]
          exact getJob_setJob_self2 hj (getJob_id hj) rfl
        · have hC : (cleanupStep w.store w.fs t.jid now ca
              (CPhase.cFallback snap)).1 = w.store := by
            show (manualCleanupFallback w.store w.fs snap t.jid now ca).1 = _
            unfold manualCleanupFallback
            dsimp only
            rw [if_neg hm]
            exact hS1
          refine ⟨j, ?_, h5, hpd⟩
          show getJob (cleanupStep w.store w.fs t.jid now ca
            (CPhase.cFallback snap)).1 t.jid = some j
          rw [hC]
          exact hj
    · refine ⟨j, ?_, h5, hpd⟩
      show getJob (cleanupStep w.store w.fs t.jid now ca t.phase).1 a = some j
      rw [getJob_cleanupStep_ne hjb]
      exact hj

theorem rtc_preserves_fiveNull {w w' : FSys} {a : String} {j : Job}
    (hinv : FInv w) (hsteps : Relation.ReflTransGen FStep w w')
    (hj : getJob w.store a = some j) (h5 : fiveNull j) (hpd : pAllDone a w) :
    ∃ j2, getJob w'.store a = some j2 ∧ fiveNull j2 := by
  have hmain : ∃ j2, getJob w'.store a = some j2 ∧ fiveNull j2
      ∧ pAllDone a w' := by
    induction hsteps with
    | refl => exact ⟨j, hj, h5, hpd⟩
    | tail hsteps2 hstep ih =>
      obtain ⟨j2, hj2, h52, hpd2⟩ := ih
      exact step_preserves_fiveNull (FInv_rtc hinv hsteps2) hstep hj2 h52 hpd2
  obtain ⟨j2, hj2, h52, hpd9⟩ := hmain
  exact ⟨j2, hj2, h52⟩

/-! ## Reachability of the demonstration worlds -/

theorem freach_fdemo5 : FReachable fdemo5 :=
  Relation.ReflTransGen.tail (Relation.ReflTransGen.tail
    (Relation.ReflTransGen.tail (Relation.ReflTransGen.tail
      (Relation.ReflTransGen.tail Relation.ReflTransGen.refl
        (FStep.create fdemo0 "j1" "u" "." "auto" none 0 rfl))
      (FStep.pstep fdemo1 0 ⟨"j1", PPhase.pCheck⟩ 1 (Except.error "boom")
        RelayOutcome.noClient rfl))
    (FStep.pstep fdemo2 0 ⟨"j1", PPhase.pMark⟩ 1 (Except.error "boom")
      RelayOutcome.noClient rfl))
    (FStep.pstep fdemo3 0 ⟨"j1", PPhase.pRun⟩ 1 (Except.error "boom")
      RelayOutcome.noClient rfl))
    (FStep.spawnCleanup fdemo4 "j1")

theorem freach_gdemo9 : FReachable gdemo9 :=
  Relation.ReflTransGen.tail (Relation.ReflTransGen.tail
    (Relation.ReflTransGen.tail (Relation.ReflTransGen.tail
      (Relation.ReflTransGen.tail (Relation.ReflTransGen.tail
        (Relation.ReflTransGen.tail (Relation.ReflTransGen.tail
          (Relation.ReflTransGen.tail Relation.ReflTransGen.refl
            (FStep.create fdemo0 "j1" "u" "." "auto" none 0 rfl))
          (FStep.pstep fdemo1 0 ⟨"j1", PPhase.pCheck⟩ 1 (Except.ok "f1")
            RelayOutcome.noClient rfl))
        (FStep.pstep gdemo2 0 ⟨"j1", PPhase.pMark⟩ 1 (Except.ok "f1")
          RelayOutcome.noClient rfl))
      (FStep.pstep gdemo3 0 ⟨"j1", PPhase.pRun⟩ 1 (Except.ok "f1")
        RelayOutcome.noClient rfl))
    (FStep.spawnDelivery gdemo4 "j1" true))
    (FStep.dstep gdemo5 0 ⟨"j1", Req.fresh true⟩ 2 true rfl))
    (FStep.dstep gdemo6 0 ⟨"j1", ⟨ReqPhase.passed "f1", true,
      some Status.completed, false⟩⟩ 2 true rfl))
    (FStep.dstep gdemo7 0 ⟨"j1", ⟨ReqPhase.marked "f1", true,
      some Status.completed, false⟩⟩ 2 true rfl))
    (FStep.dstep gdemo8 0 ⟨"j1", ⟨ReqPhase.served "f1", true,
      some Status.completed, true⟩⟩ 2 true rfl)

/-! ## Claim theorems -/

/-- C2: for every `GET /download/{job_id}/file` request: an unknown
`job_id` yields 404; status `delivered` yields 410; status `delivering`
yields 409; a status outside the allowed set (`completed` always,
`downloaded` only when `auto_delete` is false) yields 409 with the
current status in the detail message; a recorded artifact path that no
longer exists on disk yields 404; and the artifact is served exactly
when every check passes. -/
theorem download_gate_error_codes (s : Store) (fs : List String)
    (jid : String) (ad : Bool) :
    (getJob s jid = none →
      downloadFileGate s fs jid ad = .error .notFound404
      ∧ DeliveryError.notFound404.httpStatus = 404)
    ∧ (∀ j, getJob s jid = some j → j.status = Status.delivered →
      downloadFileGate s fs jid ad = .error .gone410
      ∧ DeliveryError.gone410.httpStatus = 410)
    ∧ (∀ j, getJob s jid = some j → j.status = Status.delivering →
      downloadFileGate s fs jid ad = .error .conflict409
      ∧ DeliveryError.conflict409.httpStatus = 409)
    ∧ (∀ j, getJob s jid = some j → j.status ≠ Status.delivered →
        j.status ≠ Status.delivering → statusAllowed j.status ad = false →
      downloadFileGate s fs jid ad = .error (.notReady409 j.status)
      ∧ (DeliveryError.notReady409 j.status).httpStatus = 409
      ∧ (DeliveryError.notReady409 j.status).detail
          = "งานยังไม่เสร็จสมบูรณ์ (status: " ++ j.status.toPyString ++ ")")
    ∧ (∀ j f, getJob s jid = some j → statusAllowed j.status ad = true →
        j.output_file = some f → f ≠ "" → f ∉ fs →
      downloadFileGate s fs jid ad = .error .fileMissing404
      ∧ DeliveryError.fileMissing404.httpStatus = 404)
    ∧ (∀ j f, downloadFileGate s fs jid ad = .ok (j, f) ↔
        (getJob s jid = some j ∧ j.status ≠ Status.delivered
          ∧ j.status ≠ Status.delivering ∧ statusAllowed j.status ad = true
          ∧ j.output_file = some f ∧ f ≠ "" ∧ f ∈ fs)) := by
  refine ⟨fun h => ⟨gate_none h, rfl⟩,
    fun j hj hst => ⟨gate_delivered hj hst, rfl⟩,
    fun j hj hst => ⟨gate_delivering hj hst, rfl⟩,
    fun j hj h1 h2 h3 => ⟨gate_notReady hj h1 h2 h3, rfl, rfl⟩,
    fun j f hj hall hof hne hmem => ?_,
    fun j f => ⟨fun h => gate_ok_elim h, fun h => ?_⟩⟩
  · have hsd : j.status ≠ Status.delivered ∧ j.status ≠ Status.delivering := by
      rcases statusAllowed_elim hall with h | h <;> rw [h] <;>
        exact ⟨by simp, by simp⟩
    exact ⟨gate_fileMissing hj hsd.1 hsd.2 hall hof hne hmem, rfl⟩
  · obtain ⟨hj, h1, h2, hall, hof, hne, hmem⟩ := h
    exact gate_ok_intro hj h1 h2 hall hof hne hmem

/-- Witness for C2: a `delivered` job yields 410 (gone). -/
theorem download_gate_error_codes_witness :
    downloadFileGate [demoDeliveredJob] [] "j1" true = .error .gone410 :=
  ((download_gate_error_codes [demoDeliveredJob] [] "j1" true).2.1
    demoDeliveredJob rfl rfl).1

/-- C5 (counterexample): the claim says every mutating store operation
signals "not found" on an absent job id, but `mark_delivering`,
`mark_downloaded` and `mark_file_consumed` bypass `_update_job` and, on
an absent id, return normally with the store unchanged — their embedding
is a total function with no error result, so no signal is possible. -/
theorem mark_ops_silent_on_absent_id :
    markDelivering ([] : Store) "j0" 1 = ([] : Store)
    ∧ markDownloaded ([] : Store) "j0" 1 = ([] : Store)
    ∧ markFileConsumed ([] : Store) "j0" 1 = ([] : Store) := by
  exact ⟨rfl, rfl, rfl⟩

/-- C5 (amended): the field-update primitive `_update_job` raises
`KeyError` ("not found") on an absent id, but the dedicated mark
operations (`mark_delivering`, `mark_downloaded`, `mark_file_consumed`)
do not go through it and silently leave the store unchanged on an absent
id. -/
theorem absent_id_update_raises_marks_silent (s : Store) (jid : String)
    (now : Nat) (upd : Job → Job) (h : getJob s jid = none) :
    updateJob s jid now upd = .error ("KeyError: " ++ jid)
    ∧ markDelivering s jid now = s
    ∧ markDownloaded s jid now = s
    ∧ markFileConsumed s jid now = s := by
  unfold updateJob markDelivering markDownloaded markFileConsumed
  rw [h]
  exact ⟨rfl, rfl, rfl, rfl⟩

/-- Witness for C5 (amended), at the empty store. -/
theorem absent_id_update_raises_marks_silent_witness :
    updateJob ([] : Store) "zz" 0 id = .error ("KeyError: " ++ "zz")
    ∧ markDelivering ([] : Store) "zz" 0 = ([] : Store)
    ∧ markDownloaded ([] : Store) "zz" 0 = ([] : Store)
    ∧ markFileConsumed ([] : Store) "zz" 0 = ([] : Store) :=
  absent_id_update_raises_marks_silent [] "zz" 0 id rfl

/-- C6: when extraction succeeds but the relay client cannot be
constructed or the upload fails, the job still reaches `completed` with
its local artifact fields populated, and the relay failure text is
recorded in `error`. -/
theorem relay_failure_keeps_completed (s : Store) (jid : String) (j : Job)
    (now : Nat) (f m : String) (relay : RelayOutcome)
    (hj : getJob s jid = some j)
    (hrel : relay = RelayOutcome.clientError m ∨ relay = RelayOutcome.uploadError m) :
    ∃ j2, getJob (processJob s jid now (Except.ok f) relay) jid = some j2
      ∧ j2.status = Status.completed
      ∧ j2.output_file = some f
      ∧ j2.download_url = some ("/download/" ++ jid ++ "/file")
      ∧ j2.error = some ("Google Drive upload failed: " ++ m) := by
  have hidj : j.id = jid := getJob_id hj
  have hsel : getJob (setJob s (downloadingRecord j now)) jid
      = some (downloadingRecord j now) :=
    getJob_setJob_self hj (show (downloadingRecord j now).id = jid from hidj)
  unfold processJob
  rw [hj]
  dsimp only
  rw [hsel]
  dsimp only
  have hget : getJob
      (setJob (setJob s (downloadingRecord j now))
        (completedRecord jid (downloadingRecord j now) f relay now)) jid
      = some (completedRecord jid (downloadingRecord j now) f relay now) :=
    getJob_setJob_self hsel
      (show (completedRecord jid (downloadingRecord j now) f relay now).id = jid by
        rw [completedRecord_id]
        exact hidj)
  rcases hrel with rfl | rfl
  · exact ⟨completedRecord jid (downloadingRecord j now) f (RelayOutcome.clientError m) now,
      hget, rfl, rfl, rfl, rfl⟩
  · exact ⟨completedRecord jid (downloadingRecord j now) f (RelayOutcome.uploadError m) now,
      hget, rfl, rfl, rfl, rfl⟩

/-- Witness for C6: extraction succeeds, upload raises `"quota"`. -/
theorem relay_failure_keeps_completed_witness :
    ∃ j2, getJob (processJob [mkJob "j1" "u" "." "auto" none 0] "j1" 1
        (Except.ok "f1") (RelayOutcome.uploadError "quota")) "j1" = some j2
      ∧ j2.status = Status.completed
      ∧ j2.output_file = some "f1"
      ∧ j2.download_url = some ("/download/" ++ "j1" ++ "/file")
      ∧ j2.error = some ("Google Drive upload failed: " ++ "quota") :=
  relay_failure_keeps_completed [mkJob "j1" "u" "." "auto" none 0] "j1"
    (mkJob "j1" "u" "." "auto" none 0) 1 "f1" "quota"
    (RelayOutcome.uploadError "quota") rfl (Or.inr rfl)

/-- C7: when extraction itself fails, the job transitions to `failed`
with the error text recorded and all artifact fields null (the job held
no recorded artifact before its single execution), and `process_job` —
a total function here — converts the exception into job state instead of
propagating it. -/
theorem extraction_failure_terminal_failed (s : Store) (jid : String)
    (j : Job) (now : Nat) (msg : String) (relay : RelayOutcome)
    (hj : getJob s jid = some j) (hof : j.output_file = none) :
    ∃ j2, getJob (processJob s jid now (Except.error msg) relay) jid = some j2
      ∧ j2.status = Status.failed ∧ j2.error = some msg
      ∧ j2.output_file = none ∧ j2.download_url = none
      ∧ j2.remote_file_id = none ∧ j2.remote_file_url = none
      ∧ j2.remote_file_view_url = none := by
  have hidj : j.id = jid := getJob_id hj
  have hsel : getJob (setJob s (downloadingRecord j now)) jid
      = some (downloadingRecord j now) :=
    getJob_setJob_self hj (show (downloadingRecord j now).id = jid from hidj)
  unfold processJob
  rw [hj]
  dsimp only
  rw [hsel]
  dsimp only
  refine ⟨failedRecord (downloadingRecord j now) msg now,
    getJob_setJob_self hsel
      (show (failedRecord (downloadingRecord j now) msg now).id = jid from hidj),
    rfl, rfl, ?_, rfl, rfl, rfl, rfl⟩
  exact hof

/-- Witness for C7: a fresh queued job whose extraction fails. -/
theorem extraction_failure_terminal_failed_witness :
    ∃ j2, getJob (processJob [mkJob "j1" "u" "." "auto" none 0] "j1" 1
        (Except.error "engine error") RelayOutcome.noClient) "j1" = some j2
      ∧ j2.status = Status.failed ∧ j2.error = some "engine error"
      ∧ j2.output_file = none ∧ j2.download_url = none
      ∧ j2.remote_file_id = none ∧ j2.remote_file_url = none
      ∧ j2.remote_file_view_url = none :=
  extraction_failure_terminal_failed [mkJob "j1" "u" "." "auto" none 0] "j1"
    (mkJob "j1" "u" "." "auto" none 0) 1 "engine error" RelayOutcome.noClient
    rfl rfl

/-- C10: every rejected delivery request (any 404/409/410 outcome) leaves
the job store and the disk completely unchanged: all rejection checks of
`download_file` run before `mark_delivering`. -/
theorem rejected_delivery_no_mutation (s : Store) (fs : List String)
    (jid : String) (ad : Bool) (now : Nat) (ca : Bool) (e : DeliveryError)
    (h : (deliverOnce s fs jid ad now ca).outcome = .error e) :
    (deliverOnce s fs jid ad now ca).store = s
    ∧ (deliverOnce s fs jid ad now ca).fs = fs := by
  unfold deliverOnce at h ⊢
  cases hg : downloadFileGate s fs jid ad with
  | error e2 => exact ⟨rfl, rfl⟩
  | ok jf =>
    rw [hg] at h
    dsimp only at h
    by_cases had : ad = true
    · rw [if_pos had] at h
      exact absurd h (by simp)
    · rw [if_neg had] at h
      exact absurd h (by simp)

/-- Witness for C10: an unknown job id rejects and mutates nothing. -/
theorem rejected_delivery_no_mutation_witness :
    (deliverOnce ([] : Store) [] "zz" true 0 true).store = ([] : Store)
    ∧ (deliverOnce ([] : Store) [] "zz" true 0 true).fs = ([] : List String) :=
  rejected_delivery_no_mutation [] [] "zz" true 0 true DeliveryError.notFound404 rfl

/-- C1 (counterexample): the claim says that of two concurrent delivery
requests against a `completed` job exactly one observes success and the
other never receives the byte stream. Because `download_file` checks the
status (`get_job`) and marks `delivering` under two separate lock
acquisitions, the schedule in which both requests run their gate before
either marks lets both finish with success and both serve the artifact
bytes — a duplicate byte stream. -/
theorem concurrent_completed_double_delivery :
    (runSchedule "j1" 7 true raceSchedule demoInit).req1.phase
      = ReqPhase.done ReqOutcome.success
    ∧ (runSchedule "j1" 7 true raceSchedule demoInit).req2.phase
      = ReqPhase.done ReqOutcome.success
    ∧ (runSchedule "j1" 7 true raceSchedule demoInit).req1.servedBytes = true
    ∧ (runSchedule "j1" 7 true raceSchedule demoInit).req2.servedBytes = true := by
  decide

/-- C1 (amended): the non-atomic check-then-mark lets two requests that
both read `completed` before either marks both succeed; what the code
does guarantee is that any delivery request whose status check observes
`delivering` (it arrived while another delivery was mid-flight) finishes
rejected with the conflict signal and never serves the artifact bytes —
under every schedule and from every initial store and disk. -/
theorem delivering_observation_conflict (sched : List Bool) (s0 : Store)
    (fs0 : List String) (ad1 ad2 : Bool) (jid : String) (now : Nat) (ca : Bool) :
    ((runSchedule jid now ca sched ⟨s0, fs0, Req.fresh ad1, Req.fresh ad2⟩).req1.observed
        = some Status.delivering →
      (runSchedule jid now ca sched ⟨s0, fs0, Req.fresh ad1, Req.fresh ad2⟩).req1.phase
        = ReqPhase.done (ReqOutcome.rejected DeliveryError.conflict409)
      ∧ (runSchedule jid now ca sched ⟨s0, fs0, Req.fresh ad1, Req.fresh ad2⟩).req1.servedBytes
        = false)
    ∧ ((runSchedule jid now ca sched ⟨s0, fs0, Req.fresh ad1, Req.fresh ad2⟩).req2.observed
        = some Status.delivering →
      (runSchedule jid now ca sched ⟨s0, fs0, Req.fresh ad1, Req.fresh ad2⟩).req2.phase
        = ReqPhase.done (ReqOutcome.rejected DeliveryError.conflict409)
      ∧ (runSchedule jid now ca sched ⟨s0, fs0, Req.fresh ad1, Req.fresh ad2⟩).req2.servedBytes
        = false) :=
  have h := @reqInv_runSchedule jid now ca sched
    ⟨s0, fs0, Req.fresh ad1, Req.fresh ad2⟩ (reqInv_fresh ad1) (reqInv_fresh ad2)
  ⟨h.1.1, h.2.1⟩

/-- Witness for C1 (amended): under the schedule where request 1 gates
and marks first, request 2 observes `delivering`, is rejected with the
conflict signal and serves nothing. -/
theorem delivering_observation_conflict_witness :
    (runSchedule "j1" 7 true [true, true, false] demoInit).req2.phase
      = ReqPhase.done (ReqOutcome.rejected DeliveryError.conflict409)
    ∧ (runSchedule "j1" 7 true [true, true, false] demoInit).req2.servedBytes = false :=
  (delivering_observation_conflict [true, true, false] [demoCompleted] ["f"]
    true true "j1" 7 true).2 (by decide)

/-- C8 (counterexample): the claim says a non-preset format string is
accepted by `POST /download` as a passthrough selector, but
`enqueue_download` rejects any format outside the four preset keys with
400 — even though `resolve_format_choice` itself would pass the string
through unchanged. -/
theorem nonpreset_format_rejected_400 :
    enqueueDownload (fun _ => PathKind.absent) id false "" "bestvideo" none
      = EnqueueOutcome.badFormat400
    ∧ resolve_format_choice "bestvideo" = "bestvideo" := by
  exact ⟨rfl, rfl⟩

/-- C8 (amended): `POST /download` validates `format` against the closed
preset set only: a preset key is accepted, any other format string is
rejected with 400 (so the resolver's passthrough branch is unreachable
from this endpoint, though `resolve_format_choice` does return a
non-preset non-empty string unchanged), and an unresolvable custom
ffmpeg path is rejected with 400. -/
theorem format_gate_closed_preset_set (kind : String → PathKind)
    (parent : String → String) (dde : Bool) (dd : String)
    (fmt : String) (ffl : Option String) :
    (fmt ∈ validFormats → ffl = none →
      enqueueDownload kind parent dde dd fmt ffl = EnqueueOutcome.accepted none)
    ∧ (fmt ∉ validFormats →
      enqueueDownload kind parent dde dd fmt ffl = EnqueueOutcome.badFormat400)
    ∧ (∀ p, fmt ∈ validFormats → ffl = some p → kind p = PathKind.absent →
      enqueueDownload kind parent dde dd fmt ffl
        = EnqueueOutcome.badFfmpeg400 ("ไม่พบตำแหน่ง FFmpeg ที่ระบุ: " ++ p))
    ∧ (fmt ∉ validFormats → fmt ≠ "" → resolve_format_choice fmt = fmt) := by
  refine ⟨fun hin hn => ?_, fun hout => ?_, fun p hin hfl habs => ?_,
    fun hout hne => ?_⟩
  · subst hn
    unfold enqueueDownload
    rw [if_neg (not_not_intro hin)]
  · unfold enqueueDownload
    rw [if_pos hout]
  · subst hfl
    unfold enqueueDownload
    rw [if_neg (not_not_intro hin)]
    dsimp only
    unfold resolve_ffmpeg_location
    dsimp only
    rw [habs]
  · unfold resolve_format_choice
    rw [formatPresetExpr_eq_none hout]
    dsimp only
    rw [if_neg hne]

/-- Witness for C8 (amended): `"auto"` is accepted; with format
`"auto"` an unresolvable ffmpeg path is rejected with 400. -/
theorem format_gate_closed_preset_set_witness :
    enqueueDownload (fun _ => PathKind.absent) id false "" "auto" none
      = EnqueueOutcome.accepted none
    ∧ enqueueDownload (fun _ => PathKind.absent) id false "" "auto" (some "/nope")
      = EnqueueOutcome.badFfmpeg400 ("ไม่พบตำแหน่ง FFmpeg ที่ระบุ: " ++ "/nope") :=
  ⟨(format_gate_closed_preset_set (fun _ => PathKind.absent) id false "" "auto"
      none).1 (by decide) rfl,
    (format_gate_closed_preset_set (fun _ => PathKind.absent) id false "" "auto"
      (some "/nope")).2.2.1 "/nope" (by decide) rfl rfl⟩

/-- C9: when the reported path carries a `.f<digits>` fragment token
before its extension, does not exist, but the token-stripped sibling
does exist, `_resolve_final_file` returns the stripped path; and when
neither the reported path, nor the stripped sibling, nor any same-stem
directory-scan candidate exists, it fails with the "no downloaded file
found" error. -/
theorem path_recovery_heuristic (fs : List FPath) (d name : String) :
    (stripFragment name ≠ name →
      (⟨d, name⟩ : FPath) ∉ fs →
      (⟨d, stripFragment name⟩ : FPath) ∈ fs →
      resolveFinalFile fs ⟨d, name⟩ = .ok ⟨d, stripFragment name⟩)
    ∧ ((⟨d, name⟩ : FPath) ∉ fs →
      (⟨d, stripFragment name⟩ : FPath) ∉ fs →
      (∀ q ∈ fs, (q.dir == d
          && globMatch (((pyStem name).splitOn ".f").headD "")
            ((pySuffix name).dropWhile (· = '.')) q.name) = false) →
      resolveFinalFile fs ⟨d, name⟩
        = .error ("ไม่พบไฟล์ที่ดาวน์โหลดสำเร็จ: " ++ d ++ "/" ++ name)) := by
  constructor
  · intro _ hnot hstr
    unfold resolveFinalFile
    rw [if_neg hnot, if_pos hstr]
  · intro hnot hstr hglob
    unfold resolveFinalFile
    rw [if_neg hnot, if_neg hstr]
    dsimp only
    rw [List.filter_eq_nil_iff.mpr
      (fun q hq => by rw [hglob q hq]; exact Bool.false_ne_true)]

/-- Witness for C9: `out/video.f140.mp4` is missing, `out/video.mp4`
exists, and resolution returns the stripped path; on an empty directory
the resolution fails with the not-found error. -/
theorem path_recovery_heuristic_witness :
    resolveFinalFile [⟨"out", "video.mp4"⟩] ⟨"out", "video.f140.mp4"⟩
      = .ok ⟨"out", "video.mp4"⟩
    ∧ resolveFinalFile [] ⟨"out", "video.f140.mp4"⟩
      = .error ("ไม่พบไฟล์ที่ดาวน์โหลดสำเร็จ: " ++ "out" ++ "/" ++ "video.f140.mp4") :=
  ⟨(path_recovery_heuristic [⟨"out", "video.mp4"⟩] "out" "video.f140.mp4").1
      (by decide) (by decide) (by decide),
    (path_recovery_heuristic [] "out" "video.f140.mp4").2
      (by decide) (by decide) (fun q hq => absurd hq (List.not_mem_nil q))⟩

/-- Counterexample to claim C3: a `delivered` job does not stay
`delivered`. Two delivery requests race on one `completed` job: both pass
the gate before either marks (`download_file` holds the lock only inside
`get_job` and inside `mark_delivering`). The first request delivers the
job and `_cleanup_after_delivery` deletes the artifact and marks the job
`delivered`; the in-flight second request then runs its already-passed
`mark_delivering`, flipping the job back to `delivering`; its file read
then fails on the deleted artifact (the handler raises), so no further
operation of that request runs and the job stays `delivering` forever.
The three conjuncts show the job `delivered` after five slices,
`delivering` after the sixth, and — with the second request finished in
its i/o-error state — still `delivering`. -/
theorem delivered_job_remarked_delivering :
    ((getJob (runSchedule "j1" 1 true [true, false, true, true, true]
        demoInit).store "j1").map (·.status) = some Status.delivered)
    ∧ ((getJob (runSchedule "j1" 1 true [true, false, true, true, true, false]
        demoInit).store "j1").map (·.status) = some Status.delivering)
    ∧ (runSchedule "j1" 1 true [true, false, true, true, true, false, false]
        demoInit).req2.phase = ReqPhase.done ReqOutcome.ioError
    ∧ ((getJob (runSchedule "j1" 1 true
        [true, false, true, true, true, false, false]
        demoInit).store "j1").map (·.status) = some Status.delivering) := by
  decide

/-- Claim C3 (amended): over the fine-grained interleaved semantics of
every reachable world, a `failed` job's full snapshot is preserved by
every further step sequence unconditionally; a `delivered` job's full
snapshot is preserved by every further step sequence provided no
in-flight delivery or cleanup request for it is already past its status
check (`DangerFree`) — without that quiescence proviso the preservation
is refuted by `delivered_job_remarked_delivering`. -/
theorem terminal_immutability_refined (w w' : FSys) (a : String) (j : Job)
    (hr : FReachable w) (hsteps : Relation.ReflTransGen FStep w w')
    (hj : getJob w.store a = some j) :
    (j.status = Status.failed → getJob w'.store a = some j)
    ∧ (j.status = Status.delivered → DangerFree a w →
        getJob w'.store a = some j) := by
  have hinv := FInv_reachable hr
  constructor
  · intro hst
    have hji := hinv.2.1 j (getJob_mem hj)
    obtain ⟨ho, hrn, hdf⟩ := hji.2.1 hst
    have hdfa : DangerFree a w := by
      rw [← getJob_id hj]
      exact hdf
    exact (rtc_preserves_terminal hinv hsteps hj (Or.inl hst) hrn hdfa).1
  · intro hst hdf
    have hji := hinv.2.1 j (getJob_mem hj)
    have h5 := hji.2.2 hst
    exact (rtc_preserves_terminal hinv hsteps hj (Or.inr hst) h5.2.2.1 hdf).1

/-- Witness for C3: in the concrete reachable world `fdemo5` (job `"j1"`
failed with `"boom"`, a manual cleanup request spawned), the `failed`
snapshot survives the cleanup request's snapshot step. -/
theorem terminal_immutability_refined_witness :
    getJob fdemo6.store "j1" = some demoFailedJob :=
  (terminal_immutability_refined fdemo5 fdemo6 "j1" demoFailedJob
    freach_fdemo5
    (Relation.ReflTransGen.tail Relation.ReflTransGen.refl
      (FStep.cstep fdemo5 0 ⟨"j1", CPhase.cInit⟩ 3 true rfl))
    (by decide)).1 (by decide)

/-- Claim C4: in every reachable world of the fine-grained interleaved
semantics, a job whose status is `delivered` has `output_file`,
`download_url`, `remote_file_id`, `remote_file_url` and
`remote_file_view_url` all null, and after every further step sequence
the job (under whatever status it then has) still has all five artifact
fields null — no later operation repopulates them. -/
theorem delivered_fields_null_forever (w w' : FSys) (a : String) (j : Job)
    (hr : FReachable w) (hj : getJob w.store a = some j)
    (hd : j.status = Status.delivered)
    (hsteps : Relation.ReflTransGen FStep w w') :
    (j.output_file = none ∧ j.download_url = none ∧ j.remote_file_id = none
      ∧ j.remote_file_url = none ∧ j.remote_file_view_url = none)
    ∧ ∃ j2, getJob w'.store a = some j2
        ∧ j2.output_file = none ∧ j2.download_url = none
        ∧ j2.remote_file_id = none ∧ j2.remote_file_url = none
        ∧ j2.remote_file_view_url = none := by
  have hinv := FInv_reachable hr
  have h5 : fiveNull j := (hinv.2.1 j (getJob_mem hj)).2.2 hd
  have hpd : pAllDone a w := pAllDone_of_status hinv.2.2.1 hj
    (by rw [hd]; intro h; exact Status.noConfusion h)
    (by rw [hd]; intro h; exact Status.noConfusion h)
  obtain ⟨j2, hj2, h52⟩ := rtc_preserves_fiveNull hinv hsteps hj h5 hpd
  exact ⟨h5, j2, hj2, h52⟩

/-- Witness for C4: in the concrete reachable world `gdemo9` (job `"j1"`
delivered after a successful execution and an auto-delete delivery), the
five artifact fields are null and stay null when another delivery
request arrives. -/
theorem delivered_fields_null_forever_witness :
    (demoDeliveredJob.output_file = none
      ∧ demoDeliveredJob.download_url = none
      ∧ demoDeliveredJob.remote_file_id = none
      ∧ demoDeliveredJob.remote_file_url = none
      ∧ demoDeliveredJob.remote_file_view_url = none)
    ∧ ∃ j2, getJob gdemo10.store "j1" = some j2
        ∧ j2.output_file = none ∧ j2.download_url = none
        ∧ j2.remote_file_id = none ∧ j2.remote_file_url = none
        ∧ j2.remote_file_view_url = none :=
  delivered_fields_null_forever gdemo9 gdemo10 "j1" demoDeliveredJob
    freach_gdemo9 (by decide) (by decide)
    (Relation.ReflTransGen.tail Relation.ReflTransGen.refl
      (FStep.spawnDelivery gdemo9 "j1" true))

end MainPy
